import Mathlib

/-!
Verification development for the `download_data.py` script of the
pinpointer repository.

The script (after its three imports of requests, pathlib.Path and json)
is, in full:

  filenames = ['ne_10m_admin_0_countries_lakes', 'ne_10m_admin_1_states_provinces']
  for filename in filenames:
      data = requests.get(f'https://raw.githubusercontent.com/nvkelso/natural-earth-vector/master/geojson/(filename).geojson')
      Path(f'data/(filename).json').write_text(json.dumps(json.loads(data.text), indent=2), 'utf-8')

The development shallowly embeds:
  * the JSON data model and the behaviour of `json.loads` and
    `json.dumps(v, indent=2)` from CPython's json library (the script's
    behaviour is decided by those library calls);
  * the script's sequential fetch-parse-serialize-write loop, with the
    network and the filesystem as explicit parameters, and the performed
    GETs and file writes as an explicit event trace.

Modelling notes (granularity of the embedding):
  * JSON numbers are modelled as arbitrary-precision integers.  Floating
    point literals (a fraction or an exponent after the integer part, and
    the NaN and Infinity constants) are outside the model; the embedded
    parser rejects them.  On integer-only documents the embedding matches
    CPython exactly.
  * Strings are sequences of Unicode scalar values.  Python strings can
    additionally hold lone surrogates; a body whose string escapes denote
    a lone surrogate is outside the model and rejected by the embedded
    parser.  `json.dumps` never emits lone surrogates, so the
    serializer side is unaffected.
  * The parser takes a fuel argument so that its recursion is structural;
    `loads` passes fuel larger than the nesting depth of any document
    that is a serializer output, as proved below.
-/

namespace DownloadData

/-- JSON values as produced by `json.loads`: null, booleans, numbers
(modelled as integers, see the header comment), strings, arrays, and
objects as ordered key-value lists (Python dicts preserve insertion
order). -/
inductive Json where
  | null
  | bool (b : Bool)
  | num (n : Int)
  | str (s : String)
  | arr (items : List Json)
  | obj (members : List (String × Json))

/-! ## Serializer: `json.dumps(v, indent=2)` with its default
`ensure_ascii=True` -/

/-- The decimal digit character for `d < 10`. -/
def digitChar (d : Nat) : Char := Char.ofNat (48 + d)

/-- Fuel-driven accumulator loop printing the decimal digits of `n`
(big-endian) in front of `acc`; any `fuel ≥ n` is enough. -/
def natCharsGo : Nat → Nat → List Char → List Char
  | 0, _, acc => acc
  | fuel+1, n, acc => if n = 0 then acc else natCharsGo fuel (n / 10) (digitChar (n % 10) :: acc)

/-- Decimal representation of a natural number, as Python's `str` of a
nonnegative `int`. -/
def natChars (n : Nat) : List Char := if n = 0 then ['0'] else natCharsGo n n []

/-- Decimal representation of an integer, as Python's `str` of an `int`:
a minus sign followed by the digits when negative. -/
def intChars (i : Int) : List Char :=
  if i < 0 then '-' :: natChars i.natAbs else natChars i.toNat

/-- Lowercase hexadecimal digit character for `d < 16`, as used by
CPython's `'\\u' + format(n, '04x')` escapes. -/
def hexDigitChar (d : Nat) : Char :=
  if d < 10 then Char.ofNat (48 + d) else Char.ofNat (87 + d)

/-- Four lowercase hex digits of `n < 0x10000`. -/
def hex4 (n : Nat) : List Char :=
  [hexDigitChar (n / 4096 % 16), hexDigitChar (n / 256 % 16),
   hexDigitChar (n / 16 % 16), hexDigitChar (n % 16)]

/-- A `\uXXXX` escape. -/
def uEscape (n : Nat) : List Char := '\\' :: 'u' :: hex4 n

/-- Escaping of one character by CPython's `encode_basestring_ascii`
(the `ensure_ascii=True` string encoder used by default by
`json.dumps`): quote, backslash and the five short control escapes;
printable ASCII kept literally; everything else as `\uXXXX`, using a
surrogate pair for characters beyond the basic multilingual plane
(CPython computes the pair with shift and mask, written here with
division and remainder by 0x400). -/
def escapeChar (c : Char) : List Char :=
  if c = '"' then ['\\', '"']
  else if c = '\\' then ['\\', '\\']
  else if c = '\x08' then ['\\', 'b']
  else if c = '\x0c' then ['\\', 'f']
  else if c = '\n' then ['\\', 'n']
  else if c = '\r' then ['\\', 'r']
  else if c = '\t' then ['\\', 't']
  else if 0x20 ≤ c.toNat ∧ c.toNat ≤ 0x7e then [c]
  else if c.toNat < 0x10000 then uEscape c.toNat
  else uEscape (0xd800 + (c.toNat - 0x10000) / 0x400) ++
       uEscape (0xdc00 + (c.toNat - 0x10000) % 0x400)

/-- Escape every character of a string body. -/
def escList : List Char → List Char
  | [] => []
  | c :: cs => escapeChar c ++ escList cs

/-- A JSON string literal: quote, escaped body, quote. -/
def quoteChars (s : String) : List Char := '"' :: (escList s.data ++ ['"'])

/-- The indentation prefix at nesting depth `level` for `indent=2`. -/
def indentChars (level : Nat) : List Char := List.replicate (2 * level) ' '

mutual
/-- Characters emitted by `json.dumps(v, indent=2)` at nesting depth
`level`: with an indent, the item separator is a comma followed by a
newline and the next indent, the key separator is a colon and a space,
and empty containers print without a newline. -/
def dumpsChars : Nat → Json → List Char
  | _, .null => ['n', 'u', 'l', 'l']
  | _, .bool true => ['t', 'r', 'u', 'e']
  | _, .bool false => ['f', 'a', 'l', 's', 'e']
  | _, .num i => intChars i
  | _, .str s => quoteChars s
  | _, .arr [] => ['[', ']']
  | level, .arr (x :: xs) =>
      '[' :: '\n' :: (indentChars (level+1) ++
        (dumpsChars (level+1) x ++ (arrTailChars (level+1) xs ++
          ('\n' :: (indentChars level ++ [']'])))))
  | _, .obj [] => ['\x7b', '\x7d']
  | level, .obj ((k, v) :: kvs) =>
      '\x7b' :: '\n' :: (indentChars (level+1) ++
        (quoteChars k ++ (':' :: ' ' :: (dumpsChars (level+1) v ++
          (objTailChars (level+1) kvs ++
            ('\n' :: (indentChars level ++ ['\x7d'])))))))

/-- The remaining array items, each preceded by the item separator. -/
def arrTailChars : Nat → List Json → List Char
  | _, [] => []
  | level, x :: xs =>
      ',' :: '\n' :: (indentChars level ++
        (dumpsChars level x ++ arrTailChars level xs))

/-- The remaining object members, each preceded by the item separator. -/
def objTailChars : Nat → List (String × Json) → List Char
  | _, [] => []
  | level, (k, v) :: kvs =>
      ',' :: '\n' :: (indentChars level ++
        (quoteChars k ++ (':' :: ' ' :: (dumpsChars level v ++
          objTailChars level kvs))))
end

/-- `json.dumps(v, indent=2)`. -/
def dumps2 (v : Json) : String := ⟨dumpsChars 0 v⟩

/-! ## Parser: `json.loads` -/

/-- JSON whitespace, as in the json module's `WHITESPACE` class. -/
def isWsChar (c : Char) : Bool := c = ' ' || c = '\t' || c = '\n' || c = '\r'

/-- Drop leading JSON whitespace. -/
def skipWs : List Char → List Char
  | [] => []
  | c :: rest => if isWsChar c then skipWs rest else c :: rest

/-- Value of one hexadecimal digit (both cases accepted, as in
`scanstring`). -/
def hexVal (c : Char) : Option Nat :=
  if '0' ≤ c ∧ c ≤ '9' then some (c.toNat - 48)
  else if 'a' ≤ c ∧ c ≤ 'f' then some (c.toNat - 87)
  else if 'A' ≤ c ∧ c ≤ 'F' then some (c.toNat - 55)
  else none

/-- Recombination of a surrogate pair, as in `scanstring`. -/
def combineSurrogates (hi lo : Nat) : Nat :=
  0x10000 + (hi - 0xd800) * 0x400 + (lo - 0xdc00)

/-- Four hex digits after a `\u`, as read by `scanstring`. -/
def readHex4 : List Char → Option (Nat × List Char)
  | h1 :: h2 :: h3 :: h4 :: r =>
    match hexVal h1, hexVal h2, hexVal h3, hexVal h4 with
    | some a, some b, some c, some d => some (a * 4096 + b * 256 + c * 16 + d, r)
    | _, _, _, _ => none
  | _ => none

/-- Decode one escape sequence (the input starts after the backslash):
the eight simple escapes, or a `\uXXXX` escape, where a high surrogate
must be followed by a low surrogate escape and the pair is recombined
(escapes denoting a lone surrogate are outside the model, see the
header comment).  Returns the decoded character and the rest of the
input. -/
def decodeEscape : List Char → Option (Char × List Char)
  | [] => none
  | e :: r =>
    if e = 'u' then
      match readHex4 r with
      | none => none
      | some (n, r1) =>
        if n < 0xd800 ∨ 0xe000 ≤ n then some (Char.ofNat n, r1)
        else if n < 0xdc00 then
          match r1 with
          | '\\' :: 'u' :: r2 =>
            match readHex4 r2 with
            | none => none
            | some (m, r3) =>
              if 0xdc00 ≤ m ∧ m < 0xe000 then
                some (Char.ofNat (combineSurrogates n m), r3)
              else none
          | _ => none
        else none
    else if e = '"' then some ('"', r)
    else if e = '\\' then some ('\\', r)
    else if e = '/' then some ('/', r)
    else if e = 'b' then some ('\x08', r)
    else if e = 'f' then some ('\x0c', r)
    else if e = 'n' then some ('\n', r)
    else if e = 'r' then some ('\r', r)
    else if e = 't' then some ('\t', r)
    else none

/-- Body of a JSON string literal after its opening quote, as scanned by
the json module's `scanstring` in its default strict mode: unescaped
control characters are rejected, escapes are decoded by `decodeEscape`.
Returns the decoded body and the input after the closing quote.  The
fuel argument only makes the recursion structural: every step consumes
at least one input character, so callers pass the input length and the
behaviour is that of the unbounded loop. -/
def parseStringBody : Nat → List Char → Option (List Char × List Char)
  | 0, _ => none
  | _, [] => none
  | fuel+1, c :: rest =>
    if c = '"' then some ([], rest)
    else if c = '\\' then
      match decodeEscape rest with
      | none => none
      | some (d, r) => (parseStringBody fuel r).map (fun p => (d :: p.1, p.2))
    else if c.toNat < 0x20 then none
    else (parseStringBody fuel rest).map (fun p => (c :: p.1, p.2))

/-- Consume decimal digits into the accumulator, stopping at the first
non-digit. -/
def digitsAcc : Nat → List Char → Nat × List Char
  | acc, [] => (acc, [])
  | acc, c :: rest =>
    if c.isDigit then digitsAcc (acc * 10 + (c.toNat - 48)) rest else (acc, c :: rest)

/-- Does the input continue with a fraction or an exponent?  Such
documents denote floats, which are outside the model (see the header
comment). -/
def floatStart (l : List Char) : Bool :=
  match l with
  | c :: _ => c = '.' || c = 'e' || c = 'E'
  | [] => false

/-- The integer part of the json module's `NUMBER_RE`: `0`, or a
nonzero digit followed by digits (so a leading zero ends the match at
once, as for the regular expression). -/
def parseNat (l : List Char) : Option (Nat × List Char) :=
  match l with
  | [] => none
  | c :: rest =>
    if c = '0' then if floatStart rest then none else some (0, rest)
    else if '1' ≤ c ∧ c ≤ '9' then
      let p := digitsAcc (c.toNat - 48) rest
      if floatStart p.2 then none else some p
    else none

/-- A JSON number with an optional leading minus sign. -/
def parseNumber : List Char → Option (Int × List Char)
  | [] => none
  | c :: rest =>
    if c = '-' then (parseNat rest).map (fun p => (-(p.1 : Int), p.2))
    else (parseNat (c :: rest)).map (fun p => ((p.1 : Int), p.2))

/-- Assignment into the ordered key-value list of an object under
construction, with Python dict semantics: an existing key keeps its
position and gets the new value, a new key is appended. -/
def insertKey : List (String × Json) → String → Json → List (String × Json)
  | [], k, v => [(k, v)]
  | (k', v') :: rest, k, v =>
    if k' = k then (k, v) :: rest else (k', v') :: insertKey rest k v

mutual
/-- One JSON value, preceded by optional whitespace, as dispatched by
the json module's scanner: keyword constants, string, array, object, or
number (the NaN and Infinity constants denote floats and are outside
the model).  The fuel argument only makes the recursion structural. -/
def parseValue : Nat → List Char → Option (Json × List Char)
  | 0, _ => none
  | fuel+1, l =>
    match skipWs l with
    | [] => none
    | c :: r =>
      if c = '"' then (parseStringBody r.length r).map (fun p => (.str ⟨p.1⟩, p.2))
      else if c = '[' then
        match skipWs r with
        | [] => none
        | c1 :: r1 =>
          if c1 = ']' then some (.arr [], r1)
          else
            match parseValue fuel (c1 :: r1) with
            | none => none
            | some (v, r2) => parseArrTail fuel [v] r2
      else if c = '\x7b' then
        match skipWs r with
        | [] => none
        | c1 :: r1 =>
          if c1 = '\x7d' then some (.obj [], r1)
          else if c1 = '"' then
            match parseStringBody r1.length r1 with
            | none => none
            | some (k, r3) =>
              match skipWs r3 with
              | [] => none
              | c2 :: r4 =>
                if c2 = ':' then
                  match parseValue fuel r4 with
                  | none => none
                  | some (v, r5) => parseObjTail fuel (insertKey [] ⟨k⟩ v) r5
                else none
          else none
      else if c = 'n' then
        match r with
        | 'u' :: 'l' :: 'l' :: r2 => some (.null, r2)
        | _ => none
      else if c = 't' then
        match r with
        | 'r' :: 'u' :: 'e' :: r2 => some (.bool true, r2)
        | _ => none
      else if c = 'f' then
        match r with
        | 'a' :: 'l' :: 's' :: 'e' :: r2 => some (.bool false, r2)
        | _ => none
      else (parseNumber (c :: r)).map (fun p => (.num p.1, p.2))

/-- After one array item: close the array or consume a comma and the
next item. -/
def parseArrTail : Nat → List Json → List Char → Option (Json × List Char)
  | fuel, acc, l =>
    match skipWs l with
    | [] => none
    | c :: r =>
      if c = ']' then some (.arr acc.reverse, r)
      else if c = ',' then
        match fuel with
        | 0 => none
        | fuel'+1 =>
          match parseValue fuel' r with
          | none => none
          | some (v, r2) => parseArrTail fuel' (v :: acc) r2
      else none

/-- After one object member: close the object or consume a comma and
the next member. -/
def parseObjTail : Nat → List (String × Json) → List Char → Option (Json × List Char)
  | fuel, acc, l =>
    match skipWs l with
    | [] => none
    | c :: r =>
      if c = '\x7d' then some (.obj acc, r)
      else if c = ',' then
        match fuel with
        | 0 => none
        | fuel'+1 =>
          match skipWs r with
          | [] => none
          | c1 :: r1 =>
            if c1 = '"' then
              match parseStringBody r1.length r1 with
              | none => none
              | some (k, r3) =>
                match skipWs r3 with
                | [] => none
                | c2 :: r4 =>
                  if c2 = ':' then
                    match parseValue fuel' r4 with
                    | none => none
                    | some (v, r5) => parseObjTail fuel' (insertKey acc ⟨k⟩ v) r5
                  else none
            else none
      else none
end

/-- `json.loads`: parse one document and require that only whitespace
remains (json.JSONDecoder.decode raises `Extra data` otherwise);
`none` models a raised `JSONDecodeError`.  The fuel passed to the
parser is sufficient for every serializer output, as proved below. -/
def loads (s : String) : Option Json :=
  match parseValue (s.data.length + 1) s.data with
  | some (v, r) => if skipWs r = [] then some v else none
  | none => none

/-! ## Auxiliary notions for the parse-serialize roundtrip -/

/-- Does the input not continue with a character that would extend a
number (a digit, fraction point or exponent marker)?  Serializer
outputs place only separators, closers or nothing after a number. -/
def numStop : List Char → Bool
  | [] => true
  | c :: _ => !(c.isDigit || c = '.' || c = 'e' || c = 'E')

/-- Does the input not continue with a decimal digit? -/
def headNotDigit : List Char → Bool
  | [] => true
  | c :: _ => !c.isDigit

/-- No string occurs twice in the list. -/
def keyNodup : List String → Bool
  | [] => true
  | k :: ks => (!ks.contains k) && keyNodup ks

mutual
/-- Well-formedness of a JSON value: every object has pairwise distinct
keys.  `parseValue` only produces well-formed values, because objects
are built with the dict assignment `insertKey`. -/
def wfB : Json → Bool
  | .null => true
  | .bool _ => true
  | .num _ => true
  | .str _ => true
  | .arr xs => wfArrB xs
  | .obj kvs => keyNodup (kvs.map Prod.fst) && wfObjB kvs

/-- All array items well-formed. -/
def wfArrB : List Json → Bool
  | [] => true
  | x :: xs => wfB x && wfArrB xs

/-- All object member values well-formed. -/
def wfObjB : List (String × Json) → Bool
  | [] => true
  | (_, v) :: kvs => wfB v && wfObjB kvs
end

mutual
/-- Fuel sufficient for `parseValue` on a serialization of `v`. -/
def gFuel : Json → Nat
  | .null => 1
  | .bool _ => 1
  | .num _ => 1
  | .str _ => 1
  | .arr [] => 1
  | .arr (x :: xs) => 1 + max (gFuel x) (gFuelArr xs)
  | .obj [] => 1
  | .obj ((_, v) :: kvs) => 1 + max (gFuel v) (gFuelObj kvs)

/-- Fuel sufficient for `parseArrTail` on serialized remaining items. -/
def gFuelArr : List Json → Nat
  | [] => 0
  | x :: xs => 1 + max (gFuel x) (gFuelArr xs)

/-- Fuel sufficient for `parseObjTail` on serialized remaining
members. -/
def gFuelObj : List (String × Json) → Nat
  | [] => 0
  | (_, v) :: kvs => 1 + max (gFuel v) (gFuelObj kvs)
end

/-- Structural induction for the nested inductive `Json`, with
elementwise hypotheses for arrays and objects. -/
def jStrongInd (motive : Json → Prop)
    (hnull : motive .null) (hbool : ∀ b, motive (.bool b))
    (hnum : ∀ i, motive (.num i)) (hstr : ∀ s, motive (.str s))
    (harr : ∀ xs, (∀ x ∈ xs, motive x) → motive (.arr xs))
    (hobj : ∀ kvs, (∀ kv ∈ kvs, motive kv.2) → motive (.obj kvs)) :
    ∀ v, motive v
  | .null => hnull
  | .bool b => hbool b
  | .num i => hnum i
  | .str s => hstr s
  | .arr xs => harr xs (fun x hx =>
      jStrongInd motive hnull hbool hnum hstr harr hobj x)
  | .obj kvs => hobj kvs (fun kv hkv =>
      jStrongInd motive hnull hbool hnum hstr harr hobj kv.2)
termination_by v => sizeOf v
decreasing_by
  · have h1 := List.sizeOf_lt_of_mem hx
    simp only [Json.arr.sizeOf_spec]
    omega
  · have h1 := List.sizeOf_lt_of_mem hkv
    have h2 : sizeOf kv.2 < sizeOf kv := by
      cases kv with
      | mk a b => simp [Prod.mk.sizeOf_spec]
    simp only [Json.obj.sizeOf_spec]
    omega

/-! ## The script: state, effects and the fetch-write loop -/

/-- An HTTP response as seen through the requests library: the script
only ever reads `.text` (the decoded body); the status code is carried
to make statements about non-success statuses possible. -/
structure Response where
  status : Nat
  text : String
deriving DecidableEq

/-- The network: what a blocking `requests.get(url)` does for each url.
`Except.error` models a raised exception (connection failure and the
like); `Except.ok` is a returned response — the requests library
returns normally for every HTTP status, it raises for a status only if
`raise_for_status` is called, which the script never does. -/
def Net : Type := String → Except String Response

/-- The ways one loop iteration can die: a raised network exception, a
`json.JSONDecodeError` from `json.loads`, or a `FileNotFoundError`
from `Path.write_text` when the parent directory is missing. -/
inductive Err where
  | network (msg : String)
  | jsonDecode
  | fileNotFound (path : String)
deriving DecidableEq

/-- Observable side effects of the script, in order: one HTTP GET per
loop iteration and one file write when the iteration completes. -/
inductive Event where
  | get (url : String)
  | write (path : String) (contents : String)
deriving DecidableEq

/-- The filesystem: the set of existing directories and the files with
their contents. -/
structure Fs where
  dirs : List String
  files : List (String × String)
deriving DecidableEq

/-- Contents of the file at `path`, if it exists. -/
def Fs.getFile (fs : Fs) (path : String) : Option String :=
  (fs.files.find? (fun p => decide (p.1 = path))).map (fun p => p.2)

/-- Create or overwrite the file at `path`. -/
def Fs.setFile (fs : Fs) (path contents : String) : Fs :=
  ⟨fs.dirs, (path, contents) :: fs.files.filter (fun p => decide (p.1 ≠ path))⟩

/-- The directory part of a path: everything before the last slash
(empty for a bare filename). -/
def dirname (path : String) : String :=
  ⟨((path.data.reverse.dropWhile (fun c => decide (c ≠ '/'))).drop 1).reverse⟩

/-- `Path(path).write_text(contents, 'utf-8')`: opens the file for
writing, creating or truncating it; raises `FileNotFoundError` when the
parent directory does not exist; never creates directories. -/
def writeText (fs : Fs) (path contents : String) : Except Err Fs :=
  if dirname path = "" ∨ dirname path ∈ fs.dirs then .ok (fs.setFile path contents)
  else .error (.fileNotFound path)

/-- The url for one dataset identifier, from the f-string template. -/
def urlFor (filename : String) : String :=
  "https://raw.githubusercontent.com/nvkelso/natural-earth-vector/master/geojson/"
    ++ filename ++ ".geojson"

/-- The output path for one dataset identifier, from the f-string. -/
def outPath (filename : String) : String := "data/" ++ filename ++ ".json"

/-- One loop iteration:
`data = requests.get(urlFor filename)` then
`Path(outPath filename).write_text(json.dumps(json.loads(data.text), indent=2), 'utf-8')`.
Returns the events performed, the filesystem afterwards, and the error
that killed the process, if any. -/
def processOne (net : Net) (fs : Fs) (filename : String) :
    List Event × Fs × Option Err :=
  match net (urlFor filename) with
  | .error e => ([.get (urlFor filename)], fs, some (.network e))
  | .ok resp =>
    match loads resp.text with
    | none => ([.get (urlFor filename)], fs, some .jsonDecode)
    | some v =>
      match writeText fs (outPath filename) (dumps2 v) with
      | .error e => ([.get (urlFor filename)], fs, some e)
      | .ok fs1 =>
        ([.get (urlFor filename), .write (outPath filename) (dumps2 v)], fs1, none)

/-- The `for filename in filenames` loop: fully sequential, an
unhandled error terminates the process at once. -/
def runFiles (net : Net) : Fs → List String → List Event × Fs × Option Err
  | fs, [] => ([], fs, none)
  | fs, f :: rest =>
    match processOne net fs f with
    | (evs, fs1, none) =>
      match runFiles net fs1 rest with
      | (evs2, fs2, r) => (evs ++ evs2, fs2, r)
    | (evs, fs1, some e) => (evs, fs1, some e)

/-- The module-level list of dataset identifiers. -/
def filenames : List String :=
  ["ne_10m_admin_0_countries_lakes", "ne_10m_admin_1_states_provinces"]

/-- One run of the script body over the fixed identifier list. -/
def run (net : Net) (fs : Fs) : List Event × Fs × Option Err :=
  runFiles net fs filenames

/-- One process invocation: the script reads neither `sys.argv` nor
`os.environ`, so the command line and the environment are parameters
that the body never consults. -/
def script (_argv : List String) (_osEnv : List (String × String))
    (net : Net) (fs : Fs) : List Event × Fs × Option Err :=
  run net fs

/-! ## Concrete fixtures used by witnesses and counterexamples -/

/-- A filesystem in which the `data` directory exists. -/
def fsData : Fs := ⟨["data"], []⟩

/-- A filesystem with no directories at all. -/
def fsNoDirs : Fs := ⟨[], []⟩

/-- A network answering both GETs with status 200 and JSON bodies. -/
def netOk : Net := fun u =>
  if u = urlFor "ne_10m_admin_0_countries_lakes" then .ok ⟨200, "[1, 2]"⟩
  else .ok ⟨200, "[true]"⟩

/-- The same response bodies as `netOk` but with non-success
statuses. -/
def netOk500 : Net := fun u =>
  if u = urlFor "ne_10m_admin_0_countries_lakes" then .ok ⟨500, "[1, 2]"⟩
  else .ok ⟨503, "[true]"⟩

/-- A network answering every GET with status 404 and a body that is
nevertheless valid JSON. -/
def net404 : Net := fun _ => .ok ⟨404, "[]"⟩

/-- A network whose second response body is not valid JSON (the text
GitHub serves for a missing raw file). -/
def netBad2 : Net := fun u =>
  if u = urlFor "ne_10m_admin_0_countries_lakes" then .ok ⟨200, "[1]"⟩
  else .ok ⟨200, "404: Not Found"⟩


/-! ## Theorems -/

theorem getFile_setFile_same (fs : Fs) (p c : String) :
    (fs.setFile p c).getFile p = some c := by
  simp [Fs.setFile, Fs.getFile, List.find?_cons]

theorem getFile_setFile_ne (fs : Fs) (p q c : String) (h : q ≠ p) :
    (fs.setFile p c).getFile q = fs.getFile q := by
  have hpq : ∀ x : String × String, (!decide (x.1 = p) && decide (x.1 = q)) = decide (x.1 = q) := by
    intro x
    by_cases hx : x.1 = q
    · simp [hx]
      exact h
    · simp [hx]
  have hne : ¬(p = q) := fun hq => h hq.symm
  simp [Fs.setFile, Fs.getFile, hne]
  rw [funext hpq]

theorem dirs_setFile (fs : Fs) (p c : String) : (fs.setFile p c).dirs = fs.dirs := rfl

theorem processOne_ok (net : Net) (fs : Fs) (f : String) (r : Response) (v : Json)
    (h : net (urlFor f) = .ok r) (hv : loads r.text = some v)
    (hw : dirname (outPath f) = "" ∨ dirname (outPath f) ∈ fs.dirs) :
    processOne net fs f =
      ([.get (urlFor f), .write (outPath f) (dumps2 v)],
        fs.setFile (outPath f) (dumps2 v), none) := by
  simp [processOne, h, hv, writeText, hw]

theorem processOne_badJson (net : Net) (fs : Fs) (f : String) (r : Response)
    (h : net (urlFor f) = .ok r) (hv : loads r.text = none) :
    processOne net fs f = ([.get (urlFor f)], fs, some .jsonDecode) := by
  simp [processOne, h, hv]

theorem processOne_noDir (net : Net) (fs : Fs) (f : String) (r : Response) (v : Json)
    (h : net (urlFor f) = .ok r) (hv : loads r.text = some v)
    (hw : ¬(dirname (outPath f) = "" ∨ dirname (outPath f) ∈ fs.dirs)) :
    processOne net fs f = ([.get (urlFor f)], fs, some (.fileNotFound (outPath f))) := by
  simp [processOne, h, hv, writeText, hw]

theorem run_ok (net : Net) (fs : Fs) (r1 r2 : Response) (v1 v2 : Json)
    (h1 : net (urlFor "ne_10m_admin_0_countries_lakes") = .ok r1)
    (h2 : net (urlFor "ne_10m_admin_1_states_provinces") = .ok r2)
    (hv1 : loads r1.text = some v1) (hv2 : loads r2.text = some v2)
    (hd : "data" ∈ fs.dirs) :
    run net fs =
      ([.get (urlFor "ne_10m_admin_0_countries_lakes"),
        .write (outPath "ne_10m_admin_0_countries_lakes") (dumps2 v1),
        .get (urlFor "ne_10m_admin_1_states_provinces"),
        .write (outPath "ne_10m_admin_1_states_provinces") (dumps2 v2)],
        (fs.setFile (outPath "ne_10m_admin_0_countries_lakes") (dumps2 v1)).setFile
          (outPath "ne_10m_admin_1_states_provinces") (dumps2 v2),
        none) := by
  have hw1 : dirname (outPath "ne_10m_admin_0_countries_lakes") = "" ∨
      dirname (outPath "ne_10m_admin_0_countries_lakes") ∈ fs.dirs := by
    right
    rw [show dirname (outPath "ne_10m_admin_0_countries_lakes") = "data" from by decide]
    exact hd
  have hw2 : dirname (outPath "ne_10m_admin_1_states_provinces") = "" ∨
      dirname (outPath "ne_10m_admin_1_states_provinces") ∈
        (fs.setFile (outPath "ne_10m_admin_0_countries_lakes") (dumps2 v1)).dirs := by
    right
    rw [show dirname (outPath "ne_10m_admin_1_states_provinces") = "data" from by decide,
       dirs_setFile]
    exact hd
  have e1 := processOne_ok net fs "ne_10m_admin_0_countries_lakes" r1 v1 h1 hv1 hw1
  have e2 := processOne_ok net (fs.setFile (outPath "ne_10m_admin_0_countries_lakes") (dumps2 v1))
    "ne_10m_admin_1_states_provinces" r2 v2 h2 hv2 hw2
  simp [run, filenames, runFiles, e1, e2]

theorem run_firstBadJson (net : Net) (fs : Fs) (r1 : Response)
    (h1 : net (urlFor "ne_10m_admin_0_countries_lakes") = .ok r1)
    (hv1 : loads r1.text = none) :
    run net fs = ([.get (urlFor "ne_10m_admin_0_countries_lakes")], fs, some .jsonDecode) := by
  have e1 := processOne_badJson net fs "ne_10m_admin_0_countries_lakes" r1 h1 hv1
  simp [run, filenames, runFiles, e1]

theorem run_secondBadJson (net : Net) (fs : Fs) (r1 r2 : Response) (v1 : Json)
    (h1 : net (urlFor "ne_10m_admin_0_countries_lakes") = .ok r1)
    (h2 : net (urlFor "ne_10m_admin_1_states_provinces") = .ok r2)
    (hv1 : loads r1.text = some v1) (hv2 : loads r2.text = none)
    (hd : "data" ∈ fs.dirs) :
    run net fs =
      ([.get (urlFor "ne_10m_admin_0_countries_lakes"),
        .write (outPath "ne_10m_admin_0_countries_lakes") (dumps2 v1),
        .get (urlFor "ne_10m_admin_1_states_provinces")],
        fs.setFile (outPath "ne_10m_admin_0_countries_lakes") (dumps2 v1),
        some .jsonDecode) := by
  have hw1 : dirname (outPath "ne_10m_admin_0_countries_lakes") = "" ∨
      dirname (outPath "ne_10m_admin_0_countries_lakes") ∈ fs.dirs := by
    right
    rw [show dirname (outPath "ne_10m_admin_0_countries_lakes") = "data" from by decide]
    exact hd
  have e1 := processOne_ok net fs "ne_10m_admin_0_countries_lakes" r1 v1 h1 hv1 hw1
  have e2 := processOne_badJson net
    (fs.setFile (outPath "ne_10m_admin_0_countries_lakes") (dumps2 v1))
    "ne_10m_admin_1_states_provinces" r2 h2 hv2
  simp [run, filenames, runFiles, e1, e2]

theorem run_noDir (net : Net) (fs : Fs) (r1 : Response) (v1 : Json)
    (h1 : net (urlFor "ne_10m_admin_0_countries_lakes") = .ok r1)
    (hv1 : loads r1.text = some v1)
    (hd : "data" ∉ fs.dirs) :
    run net fs = ([.get (urlFor "ne_10m_admin_0_countries_lakes")], fs,
      some (.fileNotFound (outPath "ne_10m_admin_0_countries_lakes"))) := by
  have hw : ¬(dirname (outPath "ne_10m_admin_0_countries_lakes") = "" ∨
      dirname (outPath "ne_10m_admin_0_countries_lakes") ∈ fs.dirs) := by
    rw [show dirname (outPath "ne_10m_admin_0_countries_lakes") = "data" from by decide]
    rintro (he | hm)
    · exact absurd he (by decide)
    · exact hd hm
  have e1 := processOne_noDir net fs "ne_10m_admin_0_countries_lakes" r1 v1 h1 hv1 hw
  simp [run, filenames, runFiles, e1]

/-- Counterexample to C1 as stated: the spec claims a non-success HTTP
status makes the script terminate without writing that identifier's
file.  On the code it does not: `requests.get` returns normally for a
404 and the script never inspects the status, so with every GET
answered by status 404 and the valid JSON body `[]`, the run finishes
without error, writes the first identifier's file, and issues exactly
one GET for its url. -/
theorem C1_counterexample :
    net404 (urlFor "ne_10m_admin_0_countries_lakes") = .ok ⟨404, "[]"⟩ ∧
    (run net404 fsData).2.2 = none ∧
    (run net404 fsData).2.1.getFile (outPath "ne_10m_admin_0_countries_lakes") = some "[]" ∧
    (run net404 fsData).1.count (.get (urlFor "ne_10m_admin_0_countries_lakes")) = 1 := by
  refine ⟨rfl, rfl, rfl, ?_⟩
  decide

/-- C1 (amended): the script never inspects the HTTP status.  When both
GETs return responses (with any statuses) and the data directory
exists, the run succeeds exactly when both response bodies are valid
JSON — a fatal error comes only from an unparsable body (or a raised
network exception), never from the status code — and no url is ever
requested more than once (no retry). -/
theorem C1_amended_status_ignored (net : Net) (fs : Fs) (r1 r2 : Response)
    (h1 : net (urlFor "ne_10m_admin_0_countries_lakes") = .ok r1)
    (h2 : net (urlFor "ne_10m_admin_1_states_provinces") = .ok r2)
    (hd : "data" ∈ fs.dirs) :
    ((run net fs).2.2 = none ↔ ((loads r1.text).isSome ∧ (loads r2.text).isSome)) ∧
    (∀ u, ((run net fs).1.count (Event.get u)) ≤ 1) := by
  have hne : urlFor "ne_10m_admin_0_countries_lakes" ≠ urlFor "ne_10m_admin_1_states_provinces" := by
    decide
  cases hl1 : loads r1.text with
  | none =>
    rw [run_firstBadJson net fs r1 h1 hl1]
    constructor
    · simp
    · intro u
      exact le_trans (List.count_le_length _ _) (by simp)
  | some v1 =>
    cases hl2 : loads r2.text with
    | none =>
      rw [run_secondBadJson net fs r1 r2 v1 h1 h2 hl1 hl2 hd]
      constructor
      · simp
      · intro u
        by_cases hu1 : urlFor "ne_10m_admin_0_countries_lakes" = u
        · by_cases hu2 : urlFor "ne_10m_admin_1_states_provinces" = u
          · exact absurd (hu1.trans hu2.symm) hne
          · simp [List.count_cons, hu1, hu2]
        · by_cases hu2 : urlFor "ne_10m_admin_1_states_provinces" = u
          · simp [List.count_cons, hu1, hu2]
          · simp [List.count_cons, hu1, hu2]
    | some v2 =>
      rw [run_ok net fs r1 r2 v1 v2 h1 h2 hl1 hl2 hd]
      constructor
      · simp
      · intro u
        by_cases hu1 : urlFor "ne_10m_admin_0_countries_lakes" = u
        · by_cases hu2 : urlFor "ne_10m_admin_1_states_provinces" = u
          · exact absurd (hu1.trans hu2.symm) hne
          · simp [List.count_cons, hu1, hu2]
        · by_cases hu2 : urlFor "ne_10m_admin_1_states_provinces" = u
          · simp [List.count_cons, hu1, hu2]
          · simp [List.count_cons, hu1, hu2]

theorem C1_amended_witness :
    ((run netOk fsData).2.2 = none ↔
      ((loads (Response.mk 200 "[1, 2]").text).isSome ∧
        (loads (Response.mk 200 "[true]").text).isSome)) ∧
    (run netOk fsData).1.count
      (Event.get (urlFor "ne_10m_admin_0_countries_lakes")) ≤ 1 := by
  have h := C1_amended_status_ignored netOk fsData ⟨200, "[1, 2]"⟩ ⟨200, "[true]"⟩ rfl rfl
    (by decide)
  exact ⟨h.1, h.2 _⟩

/-- C2: if the response body for an identifier is not valid JSON, the
process terminates with the decode error; that identifier's output
file is neither created nor modified, and a file already written for
the earlier identifier in the same run is left in place with its
contents. -/
theorem C2_invalid_json_stops_run (net : Net) (fs : Fs) (r1 r2 : Response)
    (h1 : net (urlFor "ne_10m_admin_0_countries_lakes") = .ok r1)
    (h2 : net (urlFor "ne_10m_admin_1_states_provinces") = .ok r2)
    (hd : "data" ∈ fs.dirs) :
    (loads r1.text = none →
      run net fs = ([.get (urlFor "ne_10m_admin_0_countries_lakes")], fs, some .jsonDecode)) ∧
    (∀ v1, loads r1.text = some v1 → loads r2.text = none →
      run net fs =
        ([.get (urlFor "ne_10m_admin_0_countries_lakes"),
          .write (outPath "ne_10m_admin_0_countries_lakes") (dumps2 v1),
          .get (urlFor "ne_10m_admin_1_states_provinces")],
          fs.setFile (outPath "ne_10m_admin_0_countries_lakes") (dumps2 v1),
          some .jsonDecode) ∧
      (run net fs).2.1.getFile (outPath "ne_10m_admin_1_states_provinces") =
        fs.getFile (outPath "ne_10m_admin_1_states_provinces") ∧
      (run net fs).2.1.getFile (outPath "ne_10m_admin_0_countries_lakes") =
        some (dumps2 v1)) := by
  constructor
  · intro hv1
    exact run_firstBadJson net fs r1 h1 hv1
  · intro v1 hv1 hv2
    have e := run_secondBadJson net fs r1 r2 v1 h1 h2 hv1 hv2 hd
    refine ⟨e, ?_, ?_⟩
    · rw [e]
      exact getFile_setFile_ne fs _ _ _ (by decide)
    · rw [e]
      exact getFile_setFile_same fs _ _

theorem C2_witness :
    (loads (Response.mk 200 "[1]").text = none →
      run netBad2 fsData = ([.get (urlFor "ne_10m_admin_0_countries_lakes")], fsData,
        some .jsonDecode)) ∧
    (∀ v1, loads (Response.mk 200 "[1]").text = some v1 →
      loads (Response.mk 200 "404: Not Found").text = none →
      run netBad2 fsData =
        ([.get (urlFor "ne_10m_admin_0_countries_lakes"),
          .write (outPath "ne_10m_admin_0_countries_lakes") (dumps2 v1),
          .get (urlFor "ne_10m_admin_1_states_provinces")],
          fsData.setFile (outPath "ne_10m_admin_0_countries_lakes") (dumps2 v1),
          some .jsonDecode) ∧
      (run netBad2 fsData).2.1.getFile (outPath "ne_10m_admin_1_states_provinces") =
        fsData.getFile (outPath "ne_10m_admin_1_states_provinces") ∧
      (run netBad2 fsData).2.1.getFile (outPath "ne_10m_admin_0_countries_lakes") =
        some (dumps2 v1)) :=
  C2_invalid_json_stops_run netBad2 fsData ⟨200, "[1]"⟩ ⟨200, "404: Not Found"⟩ rfl rfl
    (by decide)

/-- C3: a successful run processes exactly the two identifiers in
order, and for each one in sequence issues one blocking GET to the url
obtained from the template, parses the body, re-serializes it with
2-space indentation, and writes it to `data/identifier.json`; each
fetch-then-write completes before the next identifier's fetch, as the
event trace shows. -/
theorem C3_sequential_fetch_write (net : Net) (fs : Fs) (r1 r2 : Response) (v1 v2 : Json)
    (h1 : net (urlFor "ne_10m_admin_0_countries_lakes") = .ok r1)
    (h2 : net (urlFor "ne_10m_admin_1_states_provinces") = .ok r2)
    (hv1 : loads r1.text = some v1) (hv2 : loads r2.text = some v2)
    (hd : "data" ∈ fs.dirs) :
    run net fs =
      ([.get "https://raw.githubusercontent.com/nvkelso/natural-earth-vector/master/geojson/ne_10m_admin_0_countries_lakes.geojson",
        .write "data/ne_10m_admin_0_countries_lakes.json" (dumps2 v1),
        .get "https://raw.githubusercontent.com/nvkelso/natural-earth-vector/master/geojson/ne_10m_admin_1_states_provinces.geojson",
        .write "data/ne_10m_admin_1_states_provinces.json" (dumps2 v2)],
        (fs.setFile "data/ne_10m_admin_0_countries_lakes.json" (dumps2 v1)).setFile
          "data/ne_10m_admin_1_states_provinces.json" (dumps2 v2),
        none) :=
  run_ok net fs r1 r2 v1 v2 h1 h2 hv1 hv2 hd

theorem C3_witness :
    run netOk fsData =
      ([.get "https://raw.githubusercontent.com/nvkelso/natural-earth-vector/master/geojson/ne_10m_admin_0_countries_lakes.geojson",
        .write "data/ne_10m_admin_0_countries_lakes.json" (dumps2 (.arr [.num 1, .num 2])),
        .get "https://raw.githubusercontent.com/nvkelso/natural-earth-vector/master/geojson/ne_10m_admin_1_states_provinces.geojson",
        .write "data/ne_10m_admin_1_states_provinces.json" (dumps2 (.arr [.bool true]))],
        (fsData.setFile "data/ne_10m_admin_0_countries_lakes.json"
          (dumps2 (.arr [.num 1, .num 2]))).setFile
          "data/ne_10m_admin_1_states_provinces.json" (dumps2 (.arr [.bool true])),
        none) :=
  C3_sequential_fetch_write netOk fsData ⟨200, "[1, 2]"⟩ ⟨200, "[true]"⟩
    (.arr [.num 1, .num 2]) (.arr [.bool true]) rfl rfl rfl rfl (by decide)

/-- C6: running the script a second time with the same responses
overwrites the prior output without error, and the final contents of
both files equal the contents after a single run. -/
theorem C6_overwrite_idempotent (net : Net) (fs : Fs) (r1 r2 : Response) (v1 v2 : Json)
    (h1 : net (urlFor "ne_10m_admin_0_countries_lakes") = .ok r1)
    (h2 : net (urlFor "ne_10m_admin_1_states_provinces") = .ok r2)
    (hv1 : loads r1.text = some v1) (hv2 : loads r2.text = some v2)
    (hd : "data" ∈ fs.dirs) :
    (run net (run net fs).2.1).2.2 = none ∧
    (run net (run net fs).2.1).2.1.getFile (outPath "ne_10m_admin_0_countries_lakes") =
      (run net fs).2.1.getFile (outPath "ne_10m_admin_0_countries_lakes") ∧
    (run net (run net fs).2.1).2.1.getFile (outPath "ne_10m_admin_1_states_provinces") =
      (run net fs).2.1.getFile (outPath "ne_10m_admin_1_states_provinces") := by
  have hne : outPath "ne_10m_admin_0_countries_lakes" ≠
      outPath "ne_10m_admin_1_states_provinces" := by decide
  have e1 := run_ok net fs r1 r2 v1 v2 h1 h2 hv1 hv2 hd
  have hd1 : "data" ∈ ((fs.setFile (outPath "ne_10m_admin_0_countries_lakes") (dumps2 v1)).setFile
      (outPath "ne_10m_admin_1_states_provinces") (dumps2 v2)).dirs := by
    rw [dirs_setFile, dirs_setFile]; exact hd
  have e2 := run_ok net _ r1 r2 v1 v2 h1 h2 hv1 hv2 hd1
  rw [e1]
  simp only [e2]
  refine ⟨trivial, ?_, ?_⟩
  · rw [getFile_setFile_ne _ _ _ _ hne, getFile_setFile_same,
      getFile_setFile_ne _ _ _ _ hne, getFile_setFile_same]
  · rw [getFile_setFile_same, getFile_setFile_same]

theorem C6_witness :
    (run netOk (run netOk fsData).2.1).2.2 = none ∧
    (run netOk (run netOk fsData).2.1).2.1.getFile (outPath "ne_10m_admin_0_countries_lakes") =
      (run netOk fsData).2.1.getFile (outPath "ne_10m_admin_0_countries_lakes") ∧
    (run netOk (run netOk fsData).2.1).2.1.getFile (outPath "ne_10m_admin_1_states_provinces") =
      (run netOk fsData).2.1.getFile (outPath "ne_10m_admin_1_states_provinces") :=
  C6_overwrite_idempotent netOk fsData ⟨200, "[1, 2]"⟩ ⟨200, "[true]"⟩
    (.arr [.num 1, .num 2]) (.arr [.bool true]) rfl rfl rfl rfl (by decide)

/-- C7: when the data directory does not exist, a run whose first body
parses fails with `FileNotFoundError` at the first write attempt —
after the first fetch and parse — leaving the filesystem unchanged:
no file is written and no directory is created. -/
theorem C7_missing_dir_fatal (net : Net) (fs : Fs) (r1 : Response) (v1 : Json)
    (h1 : net (urlFor "ne_10m_admin_0_countries_lakes") = .ok r1)
    (hv1 : loads r1.text = some v1)
    (hd : "data" ∉ fs.dirs) :
    run net fs = ([.get (urlFor "ne_10m_admin_0_countries_lakes")], fs,
      some (.fileNotFound (outPath "ne_10m_admin_0_countries_lakes"))) :=
  run_noDir net fs r1 v1 h1 hv1 hd

theorem C7_witness :
    run netOk fsNoDirs = ([.get (urlFor "ne_10m_admin_0_countries_lakes")], fsNoDirs,
      some (.fileNotFound (outPath "ne_10m_admin_0_countries_lakes"))) :=
  C7_missing_dir_fatal netOk fsNoDirs ⟨200, "[1, 2]"⟩ (.arr [.num 1, .num 2]) rfl rfl
    (by decide)

/-- C8: the script consumes no command-line arguments and no
environment variables: two invocations differing only in those are
identical in requests issued, files written, and contents. -/
theorem C8_no_argv_no_env (argv1 argv2 : List String)
    (osEnv1 osEnv2 : List (String × String)) (net : Net) (fs : Fs) :
    script argv1 osEnv1 net fs = script argv2 osEnv2 net fs := rfl

/-- C9: the script is deterministic in the remote responses: two runs
in which the GET for each identifier returns the same response body
text perform identical events and produce identical file contents,
whatever the statuses. -/
theorem C9_deterministic_in_responses (net1 net2 : Net) (fs : Fs)
    (r1 s1 r2 s2 : Response)
    (h1 : net1 (urlFor "ne_10m_admin_0_countries_lakes") = .ok r1)
    (h1s : net2 (urlFor "ne_10m_admin_0_countries_lakes") = .ok s1)
    (ht1 : r1.text = s1.text)
    (h2 : net1 (urlFor "ne_10m_admin_1_states_provinces") = .ok r2)
    (h2s : net2 (urlFor "ne_10m_admin_1_states_provinces") = .ok s2)
    (ht2 : r2.text = s2.text) :
    run net1 fs = run net2 fs := by
  have p1 : ∀ fs1 : Fs, processOne net1 fs1 "ne_10m_admin_0_countries_lakes" =
      processOne net2 fs1 "ne_10m_admin_0_countries_lakes" := by
    intro fs1
    simp [processOne, h1, h1s, ht1]
  have p2 : ∀ fs1 : Fs, processOne net1 fs1 "ne_10m_admin_1_states_provinces" =
      processOne net2 fs1 "ne_10m_admin_1_states_provinces" := by
    intro fs1
    simp [processOne, h2, h2s, ht2]
  simp only [run, filenames, runFiles, p1, p2]

theorem C9_witness : run netOk fsData = run netOk500 fsData :=
  C9_deterministic_in_responses netOk netOk500 fsData
    ⟨200, "[1, 2]"⟩ ⟨500, "[1, 2]"⟩ ⟨200, "[true]"⟩ ⟨503, "[true]"⟩
    rfl rfl rfl rfl rfl rfl

theorem skipWs_cons_of_ws (c : Char) (l : List Char) (h : isWsChar c = true) :
    skipWs (c :: l) = skipWs l := by simp [skipWs, h]

theorem skipWs_cons_of_not_ws (c : Char) (l : List Char) (h : isWsChar c = false) :
    skipWs (c :: l) = c :: l := by simp [skipWs, h]

theorem skipWs_newline (l : List Char) : skipWs ('\n' :: l) = skipWs l :=
  skipWs_cons_of_ws _ _ (by decide)

theorem skipWs_replicate_space (n : Nat) (l : List Char) :
    skipWs (List.replicate n ' ' ++ l) = skipWs l := by
  induction n with
  | zero => rfl
  | succ n ih => rw [List.replicate_succ, List.cons_append, skipWs_cons_of_ws _ _ (by decide), ih]

theorem skipWs_indent (L : Nat) (l : List Char) :
    skipWs (indentChars L ++ l) = skipWs l := skipWs_replicate_space _ _

theorem parseValue_congr_skipWs (f : Nat) (l l' : List Char) (h : skipWs l = skipWs l') :
    parseValue f l = parseValue f l' := by
  cases f with
  | zero => rfl
  | succ f => simp only [parseValue]; rw [h]

theorem parseArrTail_congr_skipWs (f : Nat) (acc : List Json) (l l' : List Char)
    (h : skipWs l = skipWs l') : parseArrTail f acc l = parseArrTail f acc l' := by
  rw [parseArrTail.eq_1 f acc l, parseArrTail.eq_1 f acc l', h]

theorem parseObjTail_congr_skipWs (f : Nat) (acc : List (String × Json)) (l l' : List Char)
    (h : skipWs l = skipWs l') : parseObjTail f acc l = parseObjTail f acc l' := by
  rw [parseObjTail.eq_1 f acc l, parseObjTail.eq_1 f acc l', h]

theorem charValid (c : Char) :
    c.toNat < 0xd800 ∨ (0xdfff < c.toNat ∧ c.toNat < 0x110000) := c.valid

theorem hexVal_hexDigitChar : ∀ d, d < 16 → hexVal (hexDigitChar d) = some d := by decide

theorem readHex4_hex4 (n : Nat) (hn : n < 0x10000) (tail : List Char) :
    readHex4 (hex4 n ++ tail) = some (n, tail) := by
  have ha := hexVal_hexDigitChar (n / 4096 % 16) (by omega)
  have hb := hexVal_hexDigitChar (n / 256 % 16) (by omega)
  have hc := hexVal_hexDigitChar (n / 16 % 16) (by omega)
  have hd := hexVal_hexDigitChar (n % 16) (by omega)
  have hsum : n / 4096 % 16 * 4096 + n / 256 % 16 * 256 + n / 16 % 16 * 16 + n % 16 = n := by
    omega
  simp only [hex4, List.cons_append, List.nil_append, readHex4, ha, hb, hc, hd, hsum]

theorem parseStringBody_cons_backslash (F : Nat) (rest : List Char) :
    parseStringBody (F + 1) ('\\' :: rest) =
      match decodeEscape rest with
      | none => none
      | some (d, r) => (parseStringBody F r).map (fun p => (d :: p.1, p.2)) := by
  simp only [parseStringBody]
  rw [if_neg (by decide), if_pos (by decide)]

theorem psb_esc_quote (F : Nat) (tail : List Char) :
    parseStringBody (F + 1) ('\\' :: '"' :: tail) =
      (parseStringBody F tail).map (fun p => ('"' :: p.1, p.2)) := by
  rw [parseStringBody_cons_backslash]; rfl

theorem psb_esc_backslash (F : Nat) (tail : List Char) :
    parseStringBody (F + 1) ('\\' :: '\\' :: tail) =
      (parseStringBody F tail).map (fun p => ('\\' :: p.1, p.2)) := by
  rw [parseStringBody_cons_backslash]; rfl

theorem psb_esc_b (F : Nat) (tail : List Char) :
    parseStringBody (F + 1) ('\\' :: 'b' :: tail) =
      (parseStringBody F tail).map (fun p => ('\x08' :: p.1, p.2)) := by
  rw [parseStringBody_cons_backslash]; rfl

theorem psb_esc_f (F : Nat) (tail : List Char) :
    parseStringBody (F + 1) ('\\' :: 'f' :: tail) =
      (parseStringBody F tail).map (fun p => ('\x0c' :: p.1, p.2)) := by
  rw [parseStringBody_cons_backslash]; rfl

theorem psb_esc_n (F : Nat) (tail : List Char) :
    parseStringBody (F + 1) ('\\' :: 'n' :: tail) =
      (parseStringBody F tail).map (fun p => ('\n' :: p.1, p.2)) := by
  rw [parseStringBody_cons_backslash]; rfl

theorem psb_esc_r (F : Nat) (tail : List Char) :
    parseStringBody (F + 1) ('\\' :: 'r' :: tail) =
      (parseStringBody F tail).map (fun p => ('\r' :: p.1, p.2)) := by
  rw [parseStringBody_cons_backslash]; rfl

theorem psb_esc_t (F : Nat) (tail : List Char) :
    parseStringBody (F + 1) ('\\' :: 't' :: tail) =
      (parseStringBody F tail).map (fun p => ('\t' :: p.1, p.2)) := by
  rw [parseStringBody_cons_backslash]; rfl

theorem psb_literal (c : Char) (F : Nat) (tail : List Char) (h1 : ¬(c = '"'))
    (h2 : ¬(c = '\\')) (h3 : ¬(c.toNat < 0x20)) :
    parseStringBody (F + 1) (c :: tail) =
      (parseStringBody F tail).map (fun p => (c :: p.1, p.2)) := by
  simp only [parseStringBody]
  rw [if_neg h1, if_neg h2, if_neg h3]

theorem psb_escU (c : Char) (F : Nat) (tail : List Char) (h9 : c.toNat < 0x10000) :
    parseStringBody (F + 1) ('\\' :: 'u' :: (hex4 c.toNat ++ tail)) =
      (parseStringBody F tail).map (fun p => (c :: p.1, p.2)) := by
  have hcond : c.toNat < 0xd800 ∨ 0xe000 ≤ c.toNat := by
    rcases charValid c with h | h
    · exact Or.inl h
    · exact Or.inr (by omega)
  rw [parseStringBody_cons_backslash]
  simp only [decodeEscape, ite_true]
  rw [readHex4_hex4 c.toNat h9]
  simp only [if_pos hcond, Char.ofNat_toNat]

theorem decodeEscape_surrPair (hi lo : Nat) (tail : List Char)
    (hhi1 : 0xd800 ≤ hi) (hhi2 : hi < 0xdc00) (hlo1 : 0xdc00 ≤ lo) (hlo2 : lo < 0xe000) :
    decodeEscape ('u' :: (hex4 hi ++ ('\\' :: 'u' :: (hex4 lo ++ tail)))) =
      some (Char.ofNat (combineSurrogates hi lo), tail) := by
  simp only [decodeEscape, ite_true]
  rw [readHex4_hex4 hi (by omega)]
  simp only
  rw [if_neg (by omega), if_pos (by omega)]
  rw [readHex4_hex4 lo (by omega)]
  simp only
  rw [if_pos ⟨hlo1, hlo2⟩]

theorem psb_escSurrogate (c : Char) (F : Nat) (tail : List Char) (h9 : ¬(c.toNat < 0x10000)) :
    parseStringBody (F + 1) ('\\' :: 'u' :: (hex4 (0xd800 + (c.toNat - 0x10000) / 0x400) ++
      ('\\' :: 'u' :: (hex4 (0xdc00 + (c.toNat - 0x10000) % 0x400) ++ tail)))) =
      (parseStringBody F tail).map (fun p => (c :: p.1, p.2)) := by
  have hv := charValid c
  have hlt : c.toNat < 0x110000 := by
    rcases hv with h | h
    · omega
    · exact h.2
  have hcomb : combineSurrogates (0xd800 + (c.toNat - 0x10000) / 0x400)
      (0xdc00 + (c.toNat - 0x10000) % 0x400) = c.toNat := by
    unfold combineSurrogates
    omega
  rw [parseStringBody_cons_backslash]
  rw [decodeEscape_surrPair _ _ _ (by omega) (by omega) (by omega) (by omega)]
  rw [hcomb, Char.ofNat_toNat]

theorem parseStringBody_escapeChar (c : Char) (tail : List Char) (F : Nat) :
    parseStringBody (F + 1) (escapeChar c ++ tail) =
      (parseStringBody F tail).map (fun p => (c :: p.1, p.2)) := by
  unfold escapeChar
  split_ifs with h1 h2 h3 h4 h5 h6 h7 h8 h9
  · subst h1; exact psb_esc_quote F tail
  · subst h2; exact psb_esc_backslash F tail
  · subst h3; exact psb_esc_b F tail
  · subst h4; exact psb_esc_f F tail
  · subst h5; exact psb_esc_n F tail
  · subst h6; exact psb_esc_r F tail
  · subst h7; exact psb_esc_t F tail
  · exact psb_literal c F tail h1 h2 (by omega)
  · exact psb_escU c F tail h9
  · exact psb_escSurrogate c F tail h9

theorem parseStringBody_escList (cs : List Char) (rest : List Char) :
    ∀ F, cs.length + 1 ≤ F →
    parseStringBody F (escList cs ++ '"' :: rest) = some (cs, rest) := by
  induction cs with
  | nil =>
    intro F hF
    match F, hF with
    | F+1, _ => simp [escList, parseStringBody]
  | cons c cs ih =>
    intro F hF
    match F, hF with
    | F+1, hF =>
      rw [escList, List.append_assoc, parseStringBody_escapeChar,
        ih F (by simp at hF; omega)]
      rfl

theorem digitChar_isDigit : ∀ d, d < 10 → (digitChar d).isDigit = true := by decide

theorem digitChar_toNat : ∀ d, d < 10 → (digitChar d).toNat = 48 + d := by decide

theorem digitChar_ne_zeroChar : ∀ d, d < 10 → d ≠ 0 → ¬(digitChar d = '0') := by decide

theorem digitChar_range : ∀ d, d < 10 → d ≠ 0 → ('1' ≤ digitChar d ∧ digitChar d ≤ '9') := by
  decide

theorem digitChar_ne_dash : ∀ d, d < 10 → ¬(digitChar d = '-') := by decide

theorem numStop_floatStart (l : List Char) (h : numStop l = true) : floatStart l = false := by
  cases l with
  | nil => rfl
  | cons c t =>
    simp only [numStop, Bool.not_eq_true', Bool.or_eq_false_iff] at h
    obtain ⟨⟨⟨_, h2⟩, h3⟩, h4⟩ := h
    simp [floatStart, h2, h3, h4]

theorem numStop_headNotDigit (l : List Char) (h : numStop l = true) :
    headNotDigit l = true := by
  cases l with
  | nil => rfl
  | cons c t =>
    simp only [numStop, Bool.not_eq_true', Bool.or_eq_false_iff] at h
    obtain ⟨⟨⟨h1, _⟩, _⟩, _⟩ := h
    simp [headNotDigit, h1]

theorem natCharsGo_eq (fuel : Nat) : ∀ n acc, n ≤ fuel →
    natCharsGo fuel n acc = ((Nat.digits 10 n).reverse.map digitChar) ++ acc := by
  induction fuel with
  | zero =>
    intro n acc hn
    have : n = 0 := by omega
    subst this
    simp [natCharsGo]
  | succ fuel ih =>
    intro n acc hn
    by_cases h0 : n = 0
    · subst h0
      simp [natCharsGo]
    · rw [natCharsGo, if_neg h0, ih (n / 10) _ (by omega),
        Nat.digits_def' (by norm_num : 1 < 10) (Nat.pos_of_ne_zero h0)]
      simp [List.append_assoc]

theorem natChars_eq (n : Nat) (h : n ≠ 0) :
    natChars n = (Nat.digits 10 n).reverse.map digitChar := by
  rw [natChars, if_neg h, natCharsGo_eq n n [] le_rfl, List.append_nil]

theorem foldr_digits : ∀ n : Nat, (Nat.digits 10 n).foldr (fun d a => a * 10 + d) 0 = n := by
  intro n
  induction n using Nat.strong_induction_on with
  | _ n ih =>
    by_cases h0 : n = 0
    · subst h0; simp
    · rw [Nat.digits_def' (by norm_num : 1 < 10) (Nat.pos_of_ne_zero h0), List.foldr_cons,
        ih (n / 10) (by omega)]
      omega

theorem digits_rev_head_ne_zero :
    ∀ n, n ≠ 0 → ∀ d L, (Nat.digits 10 n).reverse = d :: L → d ≠ 0 := by
  intro n
  induction n using Nat.strong_induction_on with
  | _ n ih =>
    intro hn d L he
    rw [Nat.digits_def' (by norm_num : 1 < 10) (Nat.pos_of_ne_zero hn), List.reverse_cons] at he
    by_cases h10 : n / 10 = 0
    · rw [h10] at he
      simp at he
      have hd : d = n % 10 := he.1.symm
      omega
    · cases e2 : (Nat.digits 10 (n / 10)).reverse with
      | nil =>
        exfalso
        rw [List.reverse_eq_nil_iff, Nat.digits_eq_nil_iff_eq_zero] at e2
        exact h10 e2
      | cons d2 L2 =>
        rw [e2] at he
        have hdd : d = d2 := by
          have h5 := congrArg (fun l => l.head?) he
          simp at h5
          exact h5.symm
        rw [hdd]
        exact ih (n / 10) (by omega) h10 d2 L2 e2

theorem digitsAcc_append : ∀ (ds : List Nat), (∀ d ∈ ds, d < 10) → ∀ acc (rest : List Char),
    headNotDigit rest = true →
    digitsAcc acc (ds.map digitChar ++ rest) = (ds.foldl (fun a d => a * 10 + d) acc, rest) := by
  intro ds
  induction ds with
  | nil =>
    intro _ acc rest hr
    cases rest with
    | nil => rfl
    | cons c t =>
      simp only [headNotDigit, Bool.not_eq_true'] at hr
      simp [digitsAcc, hr]
  | cons d ds ih =>
    intro hds acc rest hr
    have hd10 : d < 10 := hds d (.head _)
    simp only [List.map_cons, List.cons_append, digitsAcc,
      digitChar_isDigit d hd10, digitChar_toNat d hd10, if_true, List.append_eq]
    rw [show 48 + d - 48 = d from by omega]
    rw [ih (fun x hx => hds x (.tail _ hx)) _ rest hr]
    rfl

theorem parseNat_natChars (n : Nat) (rest : List Char) (hr : numStop rest = true) :
    parseNat (natChars n ++ rest) = some (n, rest) := by
  have hfs := numStop_floatStart rest hr
  by_cases h0 : n = 0
  · subst h0
    show parseNat ('0' :: rest) = some (0, rest)
    simp only [parseNat, ite_true, hfs]
    rfl
  · cases e : (Nat.digits 10 n).reverse with
    | nil =>
      exfalso
      rw [List.reverse_eq_nil_iff, Nat.digits_eq_nil_iff_eq_zero] at e
      exact h0 e
    | cons d L =>
      have hdmem : d ∈ Nat.digits 10 n := by
        rw [← List.mem_reverse, e]
        exact .head _
      have hd10 : d < 10 := Nat.digits_lt_base (by norm_num) hdmem
      have hdne : d ≠ 0 := digits_rev_head_ne_zero n h0 d L e
      have hL : ∀ x ∈ L, x < 10 := by
        intro x hx
        have : x ∈ Nat.digits 10 n := by
          rw [← List.mem_reverse, e]
          exact .tail _ hx
        exact Nat.digits_lt_base (by norm_num) this
      rw [natChars_eq n h0, e, List.map_cons, List.cons_append]
      simp only [parseNat, if_neg (digitChar_ne_zeroChar d hd10 hdne),
        if_pos (digitChar_range d hd10 hdne), digitChar_toNat d hd10]
      rw [show 48 + d - 48 = d from by omega]
      rw [digitsAcc_append L hL d rest (numStop_headNotDigit rest hr)]
      simp only [hfs]
      have hval : L.foldl (fun a d => a * 10 + d) d = n := by
        have h1 : (Nat.digits 10 n).reverse.foldl (fun a d => a * 10 + d) 0 = n := by
          rw [List.foldl_reverse]
          have : (fun (x : Nat) (y : Nat) => (fun a d => a * 10 + d) y x) =
              (fun d a => a * 10 + d) := rfl
          rw [this, foldr_digits]
        rw [e, List.foldl_cons] at h1
        simpa using h1
      rw [hval]
      rfl

theorem parseNumber_intChars (i : Int) (rest : List Char) (hr : numStop rest = true) :
    parseNumber (intChars i ++ rest) = some (i, rest) := by
  by_cases hneg : i < 0
  · rw [intChars, if_pos hneg, List.cons_append]
    simp only [parseNumber, ite_true]
    rw [parseNat_natChars i.natAbs rest hr]
    show some ((-(i.natAbs : Int) : Int), rest) = some (i, rest)
    rw [show -((i.natAbs : Nat) : Int) = i from by omega]
  · rw [intChars, if_neg hneg]
    by_cases h0 : i.toNat = 0
    · rw [h0]
      show parseNumber ('0' :: rest) = some (i, rest)
      simp only [parseNumber, if_neg (by decide : ¬(('0' : Char) = '-'))]
      rw [show ('0' :: rest : List Char) = natChars 0 ++ rest from rfl]
      rw [parseNat_natChars 0 rest hr]
      show some (((0 : Nat) : Int), rest) = some (i, rest)
      rw [show ((0 : Nat) : Int) = i from by omega]
    · cases e : (Nat.digits 10 i.toNat).reverse with
      | nil =>
        exfalso
        rw [List.reverse_eq_nil_iff, Nat.digits_eq_nil_iff_eq_zero] at e
        exact h0 e
      | cons d L =>
        have hdmem : d ∈ Nat.digits 10 i.toNat := by
          rw [← List.mem_reverse, e]
          exact .head _
        have hd10 : d < 10 := Nat.digits_lt_base (by norm_num) hdmem
        rw [natChars_eq _ h0, e, List.map_cons, List.cons_append]
        simp only [parseNumber, if_neg (digitChar_ne_dash d hd10)]
        rw [show digitChar d :: (L.map digitChar ++ rest) =
          natChars i.toNat ++ rest from by rw [natChars_eq _ h0, e]; rfl]
        rw [parseNat_natChars i.toNat rest hr]
        show some (((i.toNat : Nat) : Int), rest) = some (i, rest)
        rw [show ((i.toNat : Nat) : Int) = i from by omega]

theorem mk_data (s : String) : String.mk s.data = s := rfl

theorem escapeChar_length_pos (c : Char) : 1 ≤ (escapeChar c).length := by
  unfold escapeChar
  split_ifs <;> simp [uEscape, hex4]

theorem escList_length_ge (cs : List Char) : cs.length ≤ (escList cs).length := by
  induction cs with
  | nil => simp [escList]
  | cons c t ih =>
    rw [escList, List.length_append, List.length_cons]
    have := escapeChar_length_pos c
    omega

theorem digitChar_head_props : ∀ d, d < 10 →
    (isWsChar (digitChar d) = false ∧ ¬(digitChar d = ']') ∧ ¬(digitChar d = '\x7d') ∧
     ¬(digitChar d = '"') ∧ ¬(digitChar d = '[') ∧ ¬(digitChar d = '\x7b') ∧
     ¬(digitChar d = 'n') ∧ ¬(digitChar d = 't') ∧ ¬(digitChar d = 'f')) := by decide

theorem natChars_head (n : Nat) : ∃ d t, natChars n = digitChar d :: t ∧ d < 10 := by
  by_cases h0 : n = 0
  · subst h0
    exact ⟨0, [], rfl, by omega⟩
  · cases e : (Nat.digits 10 n).reverse with
    | nil =>
      exfalso
      rw [List.reverse_eq_nil_iff, Nat.digits_eq_nil_iff_eq_zero] at e
      exact h0 e
    | cons d L =>
      have hdmem : d ∈ Nat.digits 10 n := by
        rw [← List.mem_reverse, e]
        exact .head _
      exact ⟨d, L.map digitChar, by rw [natChars_eq n h0, e]; rfl,
        Nat.digits_lt_base (by norm_num) hdmem⟩

theorem intChars_head (i : Int) : ∃ c t, intChars i = c :: t ∧
    (isWsChar c = false ∧ ¬(c = ']') ∧ ¬(c = '\x7d') ∧ ¬(c = '"') ∧ ¬(c = '[') ∧
     ¬(c = '\x7b') ∧ ¬(c = 'n') ∧ ¬(c = 't') ∧ ¬(c = 'f')) := by
  rw [intChars]
  split_ifs with hneg
  · exact ⟨'-', natChars i.natAbs, rfl, by decide⟩
  · obtain ⟨d, t, he, hd⟩ := natChars_head i.toNat
    exact ⟨digitChar d, t, he, digitChar_head_props d hd⟩

theorem dumpsChars_head (L : Nat) (v : Json) : ∃ c t, dumpsChars L v = c :: t ∧
    isWsChar c = false ∧ ¬(c = ']') ∧ ¬(c = '\x7d') := by
  cases v with
  | null => exact ⟨'n', _, rfl, by decide⟩
  | bool b =>
    cases b with
    | true => exact ⟨'t', _, rfl, by decide⟩
    | false => exact ⟨'f', _, rfl, by decide⟩
  | num i =>
    obtain ⟨c, t, he, h⟩ := intChars_head i
    exact ⟨c, t, he, h.1, h.2.1, h.2.2.1⟩
  | str s => exact ⟨'"', _, rfl, by decide⟩
  | arr xs =>
    cases xs with
    | nil => exact ⟨'[', _, rfl, by decide⟩
    | cons x xs => exact ⟨'[', _, rfl, by decide⟩
  | obj kvs =>
    cases kvs with
    | nil => exact ⟨'\x7b', _, rfl, by decide⟩
    | cons kv kvs =>
      cases kv with
      | mk k v => exact ⟨'\x7b', _, rfl, by decide⟩

theorem numStop_arrTail (L : Nat) (xs : List Json) (r : List Char) :
    numStop (arrTailChars L xs ++ '\n' :: r) = true := by
  cases xs with
  | nil => rfl
  | cons x xs => rfl

theorem numStop_objTail (L : Nat) (kvs : List (String × Json)) (r : List Char) :
    numStop (objTailChars L kvs ++ '\n' :: r) = true := by
  cases kvs with
  | nil => rfl
  | cons kv kvs =>
    cases kv with
    | mk k v => rfl

theorem wfArrB_mem (xs : List Json) (h : wfArrB xs = true) : ∀ x ∈ xs, wfB x = true := by
  induction xs with
  | nil => intro x hx; cases hx
  | cons y ys ih =>
    rw [wfArrB, Bool.and_eq_true] at h
    intro x hx
    cases hx with
    | head => exact h.1
    | tail _ hx => exact ih h.2 x hx

theorem wfObjB_mem (kvs : List (String × Json)) (h : wfObjB kvs = true) :
    ∀ kv ∈ kvs, wfB kv.2 = true := by
  induction kvs with
  | nil => intro kv hkv; cases hkv
  | cons p ps ih =>
    intro kv hkv
    cases p with
    | mk k v =>
      rw [wfObjB, Bool.and_eq_true] at h
      cases hkv with
      | head => exact h.1
      | tail _ hkv => exact ih h.2 kv hkv

theorem keyNodup_iff (l : List String) : keyNodup l = true ↔ l.Nodup := by
  induction l with
  | nil => simp [keyNodup]
  | cons k ks ih =>
    rw [keyNodup, Bool.and_eq_true, ih, List.nodup_cons]
    simp [List.contains]

theorem insertKey_append (acc : List (String × Json)) (k : String) (v : Json)
    (h : k ∉ acc.map Prod.fst) : insertKey acc k v = acc ++ [(k, v)] := by
  induction acc with
  | nil => rfl
  | cons p ps ih =>
    cases p with
    | mk k' v' =>
      simp only [List.map_cons, List.mem_cons] at h
      push_neg at h
      rw [insertKey, if_neg (fun he => h.1 he.symm), ih h.2]
      rfl

theorem gFuel_pos (v : Json) : 1 ≤ gFuel v := by
  cases v with
  | null => simp [gFuel]
  | bool b => simp [gFuel]
  | num i => simp [gFuel]
  | str s => simp [gFuel]
  | arr xs =>
    cases xs with
    | nil => simp [gFuel]
    | cons x t => simp [gFuel]
  | obj kvs =>
    cases kvs with
    | nil => simp [gFuel]
    | cons kv t =>
      cases kv with
      | mk k v => simp [gFuel]

theorem skipWs_dumps (L : Nat) (v : Json) (rest : List Char) :
    skipWs (dumpsChars L v ++ rest) = dumpsChars L v ++ rest := by
  obtain ⟨c, t, he, hnws, _, _⟩ := dumpsChars_head L v
  rw [he, List.cons_append, skipWs_cons_of_not_ws _ _ hnws]

theorem parseArrTail_spec (xs : List Json)
    (IH : ∀ x ∈ xs, ∀ (L fuel : Nat) (rest : List Char), wfB x = true → gFuel x ≤ fuel →
      numStop rest = true → parseValue fuel (dumpsChars L x ++ rest) = some (x, rest))
    (hwf : wfArrB xs = true) :
    ∀ (acc : List Json) (L1 L2 fuel : Nat) (rest : List Char), gFuelArr xs ≤ fuel →
    numStop rest = true →
    parseArrTail fuel acc (arrTailChars L1 xs ++ ('\n' :: (indentChars L2 ++ (']' :: rest)))) =
      some (.arr (acc.reverse ++ xs), rest) := by
  induction xs with
  | nil =>
    intro acc L1 L2 fuel rest hfuel hrest
    rw [show arrTailChars L1 [] ++ ('\n' :: (indentChars L2 ++ (']' :: rest))) =
      '\n' :: (indentChars L2 ++ (']' :: rest)) from rfl]
    rw [parseArrTail.eq_1, skipWs_newline, skipWs_indent,
      skipWs_cons_of_not_ws _ _ (by decide)]
    simp only [ite_true, List.append_nil]
  | cons x xs ih =>
    intro acc L1 L2 fuel rest hfuel hrest
    rw [wfArrB, Bool.and_eq_true] at hwf
    rw [gFuelArr] at hfuel
    rw [show arrTailChars L1 (x :: xs) ++ ('\n' :: (indentChars L2 ++ (']' :: rest))) =
      ',' :: '\n' :: (indentChars L1 ++ (dumpsChars L1 x ++ (arrTailChars L1 xs ++
        ('\n' :: (indentChars L2 ++ (']' :: rest)))))) from by
      rw [arrTailChars]; simp [List.append_assoc]]
    rw [parseArrTail.eq_1, skipWs_cons_of_not_ws _ _ (by decide)]
    simp only [if_neg (by decide : ¬((',' : Char) = ']')), ite_true]
    cases fuel with
    | zero => omega
    | succ fuel =>
      simp only
      rw [parseValue_congr_skipWs fuel _ (dumpsChars L1 x ++ (arrTailChars L1 xs ++
          ('\n' :: (indentChars L2 ++ (']' :: rest)))))
        (by rw [skipWs_newline, skipWs_indent])]
      rw [IH x (.head _) L1 fuel _ hwf.1 (by omega) (numStop_arrTail L1 xs _)]
      simp only
      rw [ih (fun y hy => IH y (.tail _ hy)) hwf.2 (x :: acc) L1 L2 fuel rest (by omega) hrest]
      simp [List.append_assoc]

theorem parseObjTail_spec (kvs : List (String × Json))
    (IH : ∀ kv ∈ kvs, ∀ (L fuel : Nat) (rest : List Char), wfB kv.2 = true →
      gFuel kv.2 ≤ fuel → numStop rest = true →
      parseValue fuel (dumpsChars L kv.2 ++ rest) = some (kv.2, rest))
    (hwf : wfObjB kvs = true) :
    ∀ (acc : List (String × Json)) (L1 L2 fuel : Nat) (rest : List Char),
    (acc.map Prod.fst ++ kvs.map Prod.fst).Nodup →
    gFuelObj kvs ≤ fuel → numStop rest = true →
    parseObjTail fuel acc
        (objTailChars L1 kvs ++ ('\n' :: (indentChars L2 ++ ('\x7d' :: rest)))) =
      some (.obj (acc ++ kvs), rest) := by
  induction kvs with
  | nil =>
    intro acc L1 L2 fuel rest _ hfuel hrest
    rw [show objTailChars L1 [] ++ ('\n' :: (indentChars L2 ++ ('\x7d' :: rest))) =
      '\n' :: (indentChars L2 ++ ('\x7d' :: rest)) from rfl]
    rw [parseObjTail.eq_1, skipWs_newline, skipWs_indent,
      skipWs_cons_of_not_ws _ _ (by decide)]
    simp only [ite_true, List.append_nil]
  | cons kv kvs ih =>
    intro acc L1 L2 fuel rest hnodup hfuel hrest
    cases kv with
    | mk k v =>
      rw [wfObjB, Bool.and_eq_true] at hwf
      rw [gFuelObj] at hfuel
      rw [show objTailChars L1 ((k, v) :: kvs) ++
          ('\n' :: (indentChars L2 ++ ('\x7d' :: rest))) =
        ',' :: '\n' :: (indentChars L1 ++ (quoteChars k ++ (':' :: ' ' ::
          (dumpsChars L1 v ++ (objTailChars L1 kvs ++
            ('\n' :: (indentChars L2 ++ ('\x7d' :: rest)))))))) from by
        rw [objTailChars]; simp [List.append_assoc]]
      rw [parseObjTail.eq_1, skipWs_cons_of_not_ws _ _ (by decide)]
      simp only [if_neg (by decide : ¬((',' : Char) = '\x7d')), ite_true]
      cases fuel with
      | zero => omega
      | succ fuel =>
        simp only
        rw [show skipWs ('\n' :: (indentChars L1 ++ (quoteChars k ++ (':' :: ' ' ::
            (dumpsChars L1 v ++ (objTailChars L1 kvs ++
              ('\n' :: (indentChars L2 ++ ('\x7d' :: rest))))))))) =
          '"' :: (escList k.data ++ ('"' :: (':' :: ' ' ::
            (dumpsChars L1 v ++ (objTailChars L1 kvs ++
              ('\n' :: (indentChars L2 ++ ('\x7d' :: rest)))))))) from by
          rw [skipWs_newline, skipWs_indent, quoteChars, List.cons_append,
            skipWs_cons_of_not_ws _ _ (by decide)]
          simp [List.append_assoc]]
        simp only [ite_true]
        rw [parseStringBody_escList k.data _ _ (by
          rw [List.length_append, List.length_cons]
          have := escList_length_ge k.data
          omega)]
        simp only
        rw [skipWs_cons_of_not_ws _ _ (by decide)]
        simp only [ite_true]
        rw [parseValue_congr_skipWs fuel _
          (dumpsChars L1 v ++ (objTailChars L1 kvs ++
            ('\n' :: (indentChars L2 ++ ('\x7d' :: rest)))))
          (by rw [skipWs_cons_of_ws _ _ (by decide)])]
        rw [IH (k, v) (.head _) L1 fuel _ hwf.1 (by show gFuel v ≤ fuel; omega)
          (numStop_objTail L1 kvs _)]
        simp only
        rw [mk_data k]
        have hknotin : k ∉ acc.map Prod.fst := by
          have hd := List.disjoint_of_nodup_append hnodup
          intro hmem
          exact hd hmem (by simp)
        rw [insertKey_append acc k v hknotin]
        rw [ih (fun y hy => IH y (.tail _ hy)) hwf.2 (acc ++ [(k, v)]) L1 L2 fuel rest
          (by
            simp only [List.map_append, List.map_cons, List.map_nil, List.append_assoc,
              List.singleton_append]
            simp only [List.map_cons] at hnodup
            exact hnodup)
          (by omega) hrest]
        simp [List.append_assoc]

theorem parseValue_dumps : ∀ (v : Json) (L fuel : Nat) (rest : List Char), wfB v = true →
    gFuel v ≤ fuel → numStop rest = true →
    parseValue fuel (dumpsChars L v ++ rest) = some (v, rest) := by
  intro v
  induction v using jStrongInd with
  | hnull =>
    intro L fuel rest _ hfuel hrest
    simp only [gFuel] at hfuel
    cases fuel with
    | zero => omega
    | succ fuel =>
      show parseValue (fuel + 1) ('n' :: 'u' :: 'l' :: 'l' :: rest) = some (.null, rest)
      simp only [parseValue]
      rw [skipWs_cons_of_not_ws _ _ (by decide)]
      simp [if_neg]
  | hbool b =>
    intro L fuel rest _ hfuel hrest
    simp only [gFuel] at hfuel
    cases fuel with
    | zero => omega
    | succ fuel =>
      cases b with
      | true =>
        show parseValue (fuel + 1) ('t' :: 'r' :: 'u' :: 'e' :: rest) = some (.bool true, rest)
        simp only [parseValue]
        rw [skipWs_cons_of_not_ws _ _ (by decide)]
        simp [if_neg]
      | false =>
        show parseValue (fuel + 1) ('f' :: 'a' :: 'l' :: 's' :: 'e' :: rest) =
          some (.bool false, rest)
        simp only [parseValue]
        rw [skipWs_cons_of_not_ws _ _ (by decide)]
        simp [if_neg]
  | hnum i =>
    intro L fuel rest _ hfuel hrest
    simp only [gFuel] at hfuel
    cases fuel with
    | zero => omega
    | succ fuel =>
      obtain ⟨c, t, he, hnws, hrb, hcb, hq, hlb, hob, hn, ht, hf⟩ := intChars_head i
      show parseValue (fuel + 1) (intChars i ++ rest) = some (.num i, rest)
      rw [he, List.cons_append]
      simp only [parseValue]
      rw [skipWs_cons_of_not_ws _ _ hnws]
      simp only
      rw [if_neg hq, if_neg hlb, if_neg hob, if_neg hn, if_neg ht, if_neg hf,
        ← List.cons_append, ← he, parseNumber_intChars i rest hrest]
      rfl
  | hstr s =>
    intro L fuel rest _ hfuel hrest
    simp only [gFuel] at hfuel
    cases fuel with
    | zero => omega
    | succ fuel =>
      show parseValue (fuel + 1) (quoteChars s ++ rest) = some (.str s, rest)
      rw [quoteChars, List.cons_append]
      simp only [parseValue]
      rw [skipWs_cons_of_not_ws _ _ (by decide)]
      simp only [ite_true]
      rw [show (escList s.data ++ ['"']) ++ rest = escList s.data ++ ('"' :: rest) from by
        simp [List.append_assoc]]
      rw [parseStringBody_escList s.data rest _ (by
        rw [List.length_append, List.length_cons]
        have := escList_length_ge s.data
        omega)]
      simp only [Option.map_some']
  | harr xs hIH =>
    intro L fuel rest hwf hfuel hrest
    cases xs with
    | nil =>
      simp only [gFuel] at hfuel
      cases fuel with
      | zero => omega
      | succ fuel =>
        show parseValue (fuel + 1) ('[' :: ']' :: rest) = some (.arr [], rest)
        simp only [parseValue]
        rw [skipWs_cons_of_not_ws _ _ (by decide)]
        simp only
        rw [if_neg (by decide : ¬(('[' : Char) = '"'))]
        simp only [ite_true]
        rw [skipWs_cons_of_not_ws _ _ (by decide)]
        simp [if_pos]
    | cons x xs =>
      rw [wfB, wfArrB, Bool.and_eq_true] at hwf
      simp only [gFuel] at hfuel
      cases fuel with
      | zero => omega
      | succ fuel =>
        rw [show dumpsChars L (.arr (x :: xs)) ++ rest =
          '[' :: '\n' :: (indentChars (L+1) ++ (dumpsChars (L+1) x ++ (arrTailChars (L+1) xs ++
            ('\n' :: (indentChars L ++ (']' :: rest)))))) from by
          rw [dumpsChars]
          simp [List.append_assoc]]
        simp only [parseValue]
        rw [skipWs_cons_of_not_ws _ _ (by decide)]
        simp only
        rw [if_neg (by decide : ¬(('[' : Char) = '"'))]
        simp only [ite_true]
        rw [skipWs_newline, skipWs_indent]
        obtain ⟨c, t, hex, hnws, hne1, hne2⟩ := dumpsChars_head (L+1) x
        rw [hex, List.cons_append, skipWs_cons_of_not_ws _ _ hnws]
        simp only
        rw [if_neg hne1, ← List.cons_append, ← hex,
          hIH x (.head _) (L+1) fuel _ hwf.1 (by omega) (numStop_arrTail (L+1) xs _)]
        simp only
        rw [parseArrTail_spec xs (fun y hy => hIH y (.tail _ hy)) hwf.2 [x] (L+1) L fuel rest
          (by omega) hrest]
        rfl
  | hobj kvs hIH =>
    intro L fuel rest hwf hfuel hrest
    cases kvs with
    | nil =>
      simp only [gFuel] at hfuel
      cases fuel with
      | zero => omega
      | succ fuel =>
        show parseValue (fuel + 1) ('\x7b' :: '\x7d' :: rest) = some (.obj [], rest)
        simp only [parseValue]
        rw [skipWs_cons_of_not_ws _ _ (by decide)]
        simp only
        rw [if_neg (by decide : ¬(('\x7b' : Char) = '"')),
          if_neg (by decide : ¬(('\x7b' : Char) = '['))]
        simp only [ite_true]
        rw [skipWs_cons_of_not_ws _ _ (by decide)]
        simp [if_pos]
    | cons kv kvs =>
      cases kv with
      | mk k v =>
        rw [wfB, Bool.and_eq_true] at hwf
        obtain ⟨hnod, hwf2⟩ := hwf
        rw [wfObjB, Bool.and_eq_true] at hwf2
        simp only [gFuel] at hfuel
        cases fuel with
        | zero => omega
        | succ fuel =>
          rw [show dumpsChars L (.obj ((k, v) :: kvs)) ++ rest =
            '\x7b' :: '\n' :: (indentChars (L+1) ++ (quoteChars k ++ (':' :: ' ' ::
              (dumpsChars (L+1) v ++ (objTailChars (L+1) kvs ++
                ('\n' :: (indentChars L ++ ('\x7d' :: rest)))))))) from by
            rw [dumpsChars]
            simp [List.append_assoc]]
          simp only [parseValue]
          rw [skipWs_cons_of_not_ws _ _ (by decide)]
          simp only
          rw [if_neg (by decide : ¬(('\x7b' : Char) = '"')),
            if_neg (by decide : ¬(('\x7b' : Char) = '['))]
          simp only [ite_true]
          rw [show skipWs ('\n' :: (indentChars (L+1) ++ (quoteChars k ++ (':' :: ' ' ::
              (dumpsChars (L+1) v ++ (objTailChars (L+1) kvs ++
                ('\n' :: (indentChars L ++ ('\x7d' :: rest))))))))) =
            '"' :: (escList k.data ++ ('"' :: (':' :: ' ' ::
              (dumpsChars (L+1) v ++ (objTailChars (L+1) kvs ++
                ('\n' :: (indentChars L ++ ('\x7d' :: rest)))))))) from by
            rw [skipWs_newline, skipWs_indent, quoteChars, List.cons_append,
              skipWs_cons_of_not_ws _ _ (by decide)]
            simp [List.append_assoc]]
          simp only
          rw [if_neg (by decide : ¬(('"' : Char) = '\x7d'))]
          simp only [ite_true]
          rw [parseStringBody_escList k.data _ _ (by
            rw [List.length_append, List.length_cons]
            have := escList_length_ge k.data
            omega)]
          simp only
          rw [skipWs_cons_of_not_ws _ _ (by decide)]
          simp only [ite_true]
          rw [parseValue_congr_skipWs fuel _
            (dumpsChars (L+1) v ++ (objTailChars (L+1) kvs ++
              ('\n' :: (indentChars L ++ ('\x7d' :: rest)))))
            (by rw [skipWs_cons_of_ws _ _ (by decide)])]
          rw [hIH (k, v) (.head _) (L+1) fuel _ hwf2.1 (by show gFuel v ≤ fuel; omega)
            (numStop_objTail (L+1) kvs _)]
          simp only
          rw [mk_data k]
          rw [show insertKey [] k v = [] ++ [(k, v)] from rfl]
          rw [parseObjTail_spec kvs (fun y hy => hIH y (.tail _ hy)) hwf2.2 ([] ++ [(k, v)])
            (L+1) L fuel rest
            (by
              simp only [List.nil_append, List.map_cons, List.map_nil, List.singleton_append]
              rw [keyNodup_iff] at hnod
              simpa using hnod)
            (by omega) hrest]
          simp

theorem gFuelArr_le (xs : List Json)
    (IH : ∀ x ∈ xs, ∀ L, gFuel x ≤ (dumpsChars L x).length) :
    ∀ L, gFuelArr xs ≤ (arrTailChars L xs).length := by
  induction xs with
  | nil => intro L; simp [gFuelArr, arrTailChars]
  | cons x xs ih =>
    intro L
    have h1 := IH x (.head _) L
    have h2 := ih (fun y hy => IH y (.tail _ hy)) L
    rw [gFuelArr, arrTailChars]
    simp only [List.length_cons, List.length_append]
    omega

theorem gFuelObj_le (kvs : List (String × Json))
    (IH : ∀ kv ∈ kvs, ∀ L, gFuel kv.2 ≤ (dumpsChars L kv.2).length) :
    ∀ L, gFuelObj kvs ≤ (objTailChars L kvs).length := by
  induction kvs with
  | nil => intro L; simp [gFuelObj, objTailChars]
  | cons kv kvs ih =>
    intro L
    cases kv with
    | mk k v =>
      have h1 : gFuel v ≤ (dumpsChars L v).length := IH (k, v) (.head _) L
      have h2 := ih (fun y hy => IH y (.tail _ hy)) L
      rw [gFuelObj, objTailChars]
      simp only [List.length_cons, List.length_append]
      omega

theorem gFuel_le_length : ∀ (v : Json) (L : Nat), gFuel v ≤ (dumpsChars L v).length := by
  intro v
  induction v using jStrongInd with
  | hnull => intro L; simp [gFuel, dumpsChars]
  | hbool b => intro L; cases b <;> simp [gFuel, dumpsChars]
  | hnum i =>
    intro L
    obtain ⟨c, t, he, _⟩ := intChars_head i
    show gFuel (.num i) ≤ (intChars i).length
    rw [gFuel, he]
    simp
  | hstr s => intro L; simp [gFuel, dumpsChars, quoteChars]
  | harr xs hIH =>
    intro L
    cases xs with
    | nil => simp [gFuel, dumpsChars]
    | cons x xs =>
      have h1 := hIH x (.head _) (L+1)
      have h2 := gFuelArr_le xs (fun y hy => hIH y (.tail _ hy)) (L+1)
      rw [gFuel, dumpsChars]
      simp only [List.length_cons, List.length_append]
      omega
  | hobj kvs hIH =>
    intro L
    cases kvs with
    | nil => simp [gFuel, dumpsChars]
    | cons kv kvs =>
      cases kv with
      | mk k v =>
        have h1 : gFuel v ≤ (dumpsChars (L+1) v).length := hIH (k, v) (.head _) (L+1)
        have h2 := gFuelObj_le kvs (fun y hy => hIH y (.tail _ hy)) (L+1)
        rw [gFuel, dumpsChars]
        simp only [List.length_cons, List.length_append]
        omega

theorem loads_dumps2 (v : Json) (hwf : wfB v = true) : loads (dumps2 v) = some v := by
  have hdata : (dumps2 v).data = dumpsChars 0 v ++ [] := by
    simp [dumps2]
  have h1 : parseValue ((dumps2 v).data.length + 1) (dumps2 v).data = some (v, []) := by
    rw [hdata]
    exact parseValue_dumps v 0 _ [] hwf
      (by
        have := gFuel_le_length v 0
        simp only [List.length_append, List.length_nil]
        omega)
      rfl
  rw [loads, h1]
  rfl

theorem wfArrB_iff (xs : List Json) : wfArrB xs = true ↔ ∀ x ∈ xs, wfB x = true := by
  induction xs with
  | nil => simp [wfArrB]
  | cons x t ih =>
    rw [wfArrB, Bool.and_eq_true, ih]
    constructor
    · rintro ⟨h1, h2⟩ y hy
      cases hy with
      | head => exact h1
      | tail _ hy => exact h2 y hy
    · intro h
      exact ⟨h x (.head _), fun y hy => h y (.tail _ hy)⟩

theorem wfObjB_iff (kvs : List (String × Json)) :
    wfObjB kvs = true ↔ ∀ kv ∈ kvs, wfB kv.2 = true := by
  induction kvs with
  | nil => simp [wfObjB]
  | cons p t ih =>
    cases p with
    | mk k v =>
      rw [wfObjB, Bool.and_eq_true, ih]
      constructor
      · rintro ⟨h1, h2⟩ y hy
        cases hy with
        | head => exact h1
        | tail _ hy => exact h2 y hy
      · intro h
        exact ⟨h (k, v) (.head _), fun y hy => h y (.tail _ hy)⟩

theorem mem_keys_insertKey (k : String) (v : Json) (x : String) :
    ∀ acc : List (String × Json),
    (x ∈ (insertKey acc k v).map Prod.fst ↔ (x ∈ acc.map Prod.fst ∨ x = k)) := by
  intro acc
  induction acc with
  | nil => simp [insertKey]
  | cons p ps ih =>
    cases p with
    | mk k' v' =>
      by_cases he : k' = k
      · rw [insertKey, if_pos he]
        subst he
        simp
        tauto
      · rw [insertKey, if_neg he]
        simp only [List.map_cons, List.mem_cons, ih]
        tauto

theorem keys_insertKey_nodup (k : String) (v : Json) :
    ∀ acc : List (String × Json), ((acc.map Prod.fst)).Nodup →
    ((insertKey acc k v).map Prod.fst).Nodup := by
  intro acc
  induction acc with
  | nil => intro _; simp [insertKey]
  | cons p ps ih =>
    cases p with
    | mk k' v' =>
      intro h
      simp only [List.map_cons, List.nodup_cons] at h
      by_cases he : k' = k
      · rw [insertKey, if_pos he]
        simp only [List.map_cons, List.nodup_cons]
        subst he
        exact h
      · rw [insertKey, if_neg he]
        simp only [List.map_cons, List.nodup_cons]
        refine ⟨?_, ih h.2⟩
        rw [mem_keys_insertKey]
        rintro (hm | hm)
        · exact h.1 hm
        · exact he hm

theorem insertKey_wfObjB (k : String) (v : Json) (hv : wfB v = true) :
    ∀ acc : List (String × Json), wfObjB acc = true → wfObjB (insertKey acc k v) = true := by
  intro acc
  induction acc with
  | nil => intro _; simp [insertKey, wfObjB, hv]
  | cons p ps ih =>
    cases p with
    | mk k' v' =>
      intro h
      rw [wfObjB, Bool.and_eq_true] at h
      by_cases he : k' = k
      · rw [insertKey, if_pos he, wfObjB, Bool.and_eq_true]
        exact ⟨hv, h.2⟩
      · rw [insertKey, if_neg he, wfObjB, Bool.and_eq_true]
        exact ⟨h.1, ih h.2⟩

theorem parse_wf (fuel : Nat) :
    (∀ l v r, parseValue fuel l = some (v, r) → wfB v = true) ∧
    (∀ acc l v r, parseArrTail fuel acc l = some (v, r) →
      (∀ x ∈ acc, wfB x = true) → wfB v = true) ∧
    (∀ acc l v r, parseObjTail fuel acc l = some (v, r) →
      (acc.map Prod.fst).Nodup → wfObjB acc = true → wfB v = true) := by
  induction fuel with
  | zero =>
    refine ⟨?_, ?_, ?_⟩
    · intro l v r h
      simp [parseValue] at h
    · intro acc l v r h hacc
      rw [parseArrTail.eq_1] at h
      split at h
      · exact absurd h (by simp)
      · split_ifs at h with h1 h2
        · injection h with h3
          injection h3 with h4 h5
          subst h4
          rw [wfB, wfArrB_iff]
          intro x hx
          exact hacc x (by rw [← List.mem_reverse]; exact hx)
        all_goals simp at h
    · intro acc l v r h hnodup hobj
      rw [parseObjTail.eq_1] at h
      split at h
      · exact absurd h (by simp)
      · split_ifs at h with h1 h2
        · injection h with h3
          injection h3 with h4 h5
          subst h4
          rw [wfB, Bool.and_eq_true]
          exact ⟨(keyNodup_iff _).mpr hnodup, hobj⟩
        all_goals simp at h
  | succ fuel ih =>
    obtain ⟨ihV, ihA, ihO⟩ := ih
    have hval : ∀ l v r, parseValue (fuel + 1) l = some (v, r) → wfB v = true := by
      intro l v r h
      simp only [parseValue] at h
      split at h
      · exact absurd h (by simp)
      · split_ifs at h with h1 h2 h3 h4 h5 h6
        · -- string
          rw [Option.map_eq_some'] at h
          obtain ⟨p, _, he⟩ := h
          injection he with hv _
          subst hv
          rfl
        · -- array
          split at h
          · exact absurd h (by simp)
          · split_ifs at h with h7
            · injection h with h8
              injection h8 with h9 _
              subst h9
              rfl
            · split at h
              · exact absurd h (by simp)
              · rename_i v' r2 heq
                refine ihA [v'] r2 v r h ?_
                intro x hx
                simp at hx
                subst hx
                exact ihV _ _ _ heq
        · -- object
          split at h
          · exact absurd h (by simp)
          · split_ifs at h with h7 h8
            · injection h with h9
              injection h9 with h10 _
              subst h10
              rfl
            · split at h
              · exact absurd h (by simp)
              · rename_i k r3 _
                split at h
                · exact absurd h (by simp)
                · split_ifs at h with h9
                  · split at h
                    · exact absurd h (by simp)
                    · rename_i v' r5 heq
                      refine ihO (insertKey [] ⟨k⟩ v') r5 v r h ?_ ?_
                      · simp [insertKey]
                      · show wfObjB [(String.mk k, v')] = true
                        rw [wfObjB, Bool.and_eq_true]
                        exact ⟨ihV _ _ _ heq, rfl⟩
                  all_goals exact absurd h (by simp)
        · -- null keyword
          split at h
          all_goals first
          | (injection h with h7
             injection h7 with h8 h9
             subst h8
             rfl)
          | exact absurd h (by simp)
        · -- true keyword
          split at h
          all_goals first
          | (injection h with h7
             injection h7 with h8 h9
             subst h8
             rfl)
          | exact absurd h (by simp)
        · -- false keyword
          split at h
          all_goals first
          | (injection h with h7
             injection h7 with h8 h9
             subst h8
             rfl)
          | exact absurd h (by simp)
        · -- number
          rw [Option.map_eq_some'] at h
          obtain ⟨p, _, he⟩ := h
          injection he with hv _
          subst hv
          rfl
    refine ⟨hval, ?_, ?_⟩
    · intro acc l v r h hacc
      rw [parseArrTail.eq_1] at h
      split at h
      · exact absurd h (by simp)
      · split_ifs at h with h1 h2
        · injection h with h3
          injection h3 with h4 h5
          subst h4
          rw [wfB, wfArrB_iff]
          intro x hx
          exact hacc x (by rw [← List.mem_reverse]; exact hx)
        · simp only at h
          split at h
          · exact absurd h (by simp)
          · rename_i v' r2 heq
            refine ihA (v' :: acc) r2 v r h ?_
            intro x hx
            cases hx with
            | head => exact ihV _ _ _ heq
            | tail _ hx => exact hacc x hx
    · intro acc l v r h hnodup hobj
      rw [parseObjTail.eq_1] at h
      split at h
      · exact absurd h (by simp)
      · split_ifs at h with h1 h2
        · injection h with h3
          injection h3 with h4 h5
          subst h4
          rw [wfB, Bool.and_eq_true]
          exact ⟨(keyNodup_iff _).mpr hnodup, hobj⟩
        · simp only at h
          split at h
          · exact absurd h (by simp)
          · split_ifs at h with h3
            · split at h
              · exact absurd h (by simp)
              · rename_i k r3 _
                split at h
                · exact absurd h (by simp)
                · split_ifs at h with h4
                  · split at h
                    · exact absurd h (by simp)
                    · rename_i v' r5 heq
                      refine ihO (insertKey acc ⟨k⟩ v') r5 v r h ?_ ?_
                      · exact keys_insertKey_nodup _ _ acc hnodup
                      · exact insertKey_wfObjB _ _ (ihV _ _ _ heq) acc hobj
                  all_goals exact absurd h (by simp)

theorem loads_wf (s : String) (v : Json) (h : loads s = some v) : wfB v = true := by
  rw [loads] at h
  split at h
  · rename_i p heq
    split_ifs at h
    injection h with h2
    subst h2
    exact (parse_wf _).1 _ _ _ heq
  · exact absurd h (by simp)

theorem hexDigitChar_ascii : ∀ d, d < 16 → (hexDigitChar d).toNat < 128 := by decide

theorem uEscape_ascii (n : Nat) : ∀ x ∈ uEscape n, x.toNat < 128 := by
  intro x hx
  rw [uEscape] at hx
  rcases hx with _ | ⟨_, hx⟩
  · decide
  · rcases hx with _ | ⟨_, hx⟩
    · decide
    · rw [hex4] at hx
      rcases hx with _ | ⟨_, _ | ⟨_, _ | ⟨_, _ | ⟨_, hx⟩⟩⟩⟩ <;>
        first
          | exact hexDigitChar_ascii _ (by omega)
          | cases hx

theorem escapeChar_ascii (c : Char) : ∀ x ∈ escapeChar c, x.toNat < 128 := by
  intro x hx
  unfold escapeChar at hx
  split_ifs at hx with h1 h2 h3 h4 h5 h6 h7 h8 h9
  · rcases hx with _ | ⟨_, hx⟩
    · decide
    · rcases hx with _ | ⟨_, hx⟩
      · decide
      · cases hx
  · rcases hx with _ | ⟨_, hx⟩
    · decide
    · rcases hx with _ | ⟨_, hx⟩
      · decide
      · cases hx
  · rcases hx with _ | ⟨_, hx⟩
    · decide
    · rcases hx with _ | ⟨_, hx⟩
      · decide
      · cases hx
  · rcases hx with _ | ⟨_, hx⟩
    · decide
    · rcases hx with _ | ⟨_, hx⟩
      · decide
      · cases hx
  · rcases hx with _ | ⟨_, hx⟩
    · decide
    · rcases hx with _ | ⟨_, hx⟩
      · decide
      · cases hx
  · rcases hx with _ | ⟨_, hx⟩
    · decide
    · rcases hx with _ | ⟨_, hx⟩
      · decide
      · cases hx
  · rcases hx with _ | ⟨_, hx⟩
    · decide
    · rcases hx with _ | ⟨_, hx⟩
      · decide
      · cases hx
  · rcases hx with _ | ⟨_, hx⟩
    · omega
    · cases hx
  · exact uEscape_ascii _ x hx
  · rcases List.mem_append.mp hx with hx | hx
    · exact uEscape_ascii _ x hx
    · exact uEscape_ascii _ x hx

theorem escList_ascii (cs : List Char) : ∀ x ∈ escList cs, x.toNat < 128 := by
  induction cs with
  | nil => intro x hx; cases hx
  | cons c t ih =>
    intro x hx
    rw [escList, List.mem_append] at hx
    rcases hx with hx | hx
    · exact escapeChar_ascii c x hx
    · exact ih x hx

theorem quoteChars_ascii (s : String) : ∀ x ∈ quoteChars s, x.toNat < 128 := by
  intro x hx
  rw [quoteChars] at hx
  rcases hx with _ | ⟨_, hx⟩
  · decide
  · rcases List.mem_append.mp hx with hx | hx
    · exact escList_ascii _ x hx
    · rcases hx with _ | ⟨_, hx⟩
      · decide
      · cases hx

theorem natChars_ascii (n : Nat) : ∀ x ∈ natChars n, x.toNat < 128 := by
  intro x hx
  by_cases h0 : n = 0
  · subst h0
    rcases hx with _ | ⟨_, hx⟩
    · decide
    · cases hx
  · rw [natChars_eq n h0, List.mem_map] at hx
    obtain ⟨d, hd, rfl⟩ := hx
    have : d < 10 := Nat.digits_lt_base (by norm_num) (List.mem_reverse.mp hd)
    rw [digitChar_toNat d this]
    omega

theorem intChars_ascii (i : Int) : ∀ x ∈ intChars i, x.toNat < 128 := by
  intro x hx
  rw [intChars] at hx
  split_ifs at hx
  · rcases hx with _ | ⟨_, hx⟩
    · decide
    · exact natChars_ascii _ x hx
  · exact natChars_ascii _ x hx

theorem indentChars_ascii (L : Nat) : ∀ x ∈ indentChars L, x.toNat < 128 := by
  intro x hx
  rw [indentChars] at hx
  rw [List.eq_of_mem_replicate hx]
  decide

theorem arrTail_ascii (xs : List Json)
    (IH : ∀ x ∈ xs, ∀ L, ∀ c ∈ dumpsChars L x, c.toNat < 128) :
    ∀ L, ∀ c ∈ arrTailChars L xs, c.toNat < 128 := by
  induction xs with
  | nil => intro L c hc; cases hc
  | cons x t ih =>
    intro L c hc
    rw [arrTailChars] at hc
    rcases hc with _ | ⟨_, hc⟩
    · decide
    · rcases hc with _ | ⟨_, hc⟩
      · decide
      · rcases List.mem_append.mp hc with hc | hc
        · exact indentChars_ascii L c hc
        · rcases List.mem_append.mp hc with hc | hc
          · exact IH x (.head _) L c hc
          · exact ih (fun y hy => IH y (.tail _ hy)) L c hc

theorem objTail_ascii (kvs : List (String × Json))
    (IH : ∀ kv ∈ kvs, ∀ L, ∀ c ∈ dumpsChars L kv.2, c.toNat < 128) :
    ∀ L, ∀ c ∈ objTailChars L kvs, c.toNat < 128 := by
  induction kvs with
  | nil => intro L c hc; cases hc
  | cons kv t ih =>
    cases kv with
    | mk k v =>
      intro L c hc
      rw [objTailChars] at hc
      rcases hc with _ | ⟨_, hc⟩
      · decide
      · rcases hc with _ | ⟨_, hc⟩
        · decide
        · rcases List.mem_append.mp hc with hc | hc
          · exact indentChars_ascii L c hc
          · rcases List.mem_append.mp hc with hc | hc
            · exact quoteChars_ascii k c hc
            · rcases hc with _ | ⟨_, hc⟩
              · decide
              · rcases hc with _ | ⟨_, hc⟩
                · decide
                · rcases List.mem_append.mp hc with hc | hc
                  · exact IH (k, v) (.head _) L c hc
                  · exact ih (fun y hy => IH y (.tail _ hy)) L c hc

theorem dumpsChars_ascii : ∀ (v : Json) (L : Nat), ∀ c ∈ dumpsChars L v, c.toNat < 128 := by
  intro v
  induction v using jStrongInd with
  | hnull => intro L c hc; rcases hc with _ | ⟨_, _ | ⟨_, _ | ⟨_, _ | ⟨_, h⟩⟩⟩⟩ <;>
      first | decide | cases h
  | hbool b =>
    cases b with
    | true =>
      intro L c hc
      rcases hc with _ | ⟨_, _ | ⟨_, _ | ⟨_, _ | ⟨_, h⟩⟩⟩⟩ <;> first | decide | cases h
    | false =>
      intro L c hc
      rcases hc with _ | ⟨_, _ | ⟨_, _ | ⟨_, _ | ⟨_, _ | ⟨_, h⟩⟩⟩⟩⟩ <;>
        first | decide | cases h
  | hnum i => intro L c hc; exact intChars_ascii i c hc
  | hstr s => intro L c hc; exact quoteChars_ascii s c hc
  | harr xs hIH =>
    intro L c hc
    cases xs with
    | nil =>
      rcases hc with _ | ⟨_, _ | ⟨_, h⟩⟩ <;> first | decide | cases h
    | cons x t =>
      rw [dumpsChars] at hc
      rcases hc with _ | ⟨_, hc⟩
      · decide
      · rcases hc with _ | ⟨_, hc⟩
        · decide
        · rcases List.mem_append.mp hc with hc | hc
          · exact indentChars_ascii _ c hc
          · rcases List.mem_append.mp hc with hc | hc
            · exact hIH x (.head _) _ c hc
            · rcases List.mem_append.mp hc with hc | hc
              · exact arrTail_ascii t (fun y hy => hIH y (.tail _ hy)) _ c hc
              · rcases hc with _ | ⟨_, hc⟩
                · decide
                · rcases List.mem_append.mp hc with hc | hc
                  · exact indentChars_ascii _ c hc
                  · rcases hc with _ | ⟨_, h⟩ <;> first | decide | cases h
  | hobj kvs hIH =>
    intro L c hc
    cases kvs with
    | nil =>
      rcases hc with _ | ⟨_, _ | ⟨_, h⟩⟩ <;> first | decide | cases h
    | cons kv t =>
      cases kv with
      | mk k v =>
        rw [dumpsChars] at hc
        rcases hc with _ | ⟨_, hc⟩
        · decide
        · rcases hc with _ | ⟨_, hc⟩
          · decide
          · rcases List.mem_append.mp hc with hc | hc
            · exact indentChars_ascii _ c hc
            · rcases List.mem_append.mp hc with hc | hc
              · exact quoteChars_ascii k c hc
              · rcases hc with _ | ⟨_, hc⟩
                · decide
                · rcases hc with _ | ⟨_, hc⟩
                  · decide
                  · rcases List.mem_append.mp hc with hc | hc
                    · exact hIH (k, v) (.head _) _ c hc
                    · rcases List.mem_append.mp hc with hc | hc
                      · exact objTail_ascii t (fun y hy => hIH y (.tail _ hy)) _ c hc
                      · rcases hc with _ | ⟨_, hc⟩
                        · decide
                        · rcases List.mem_append.mp hc with hc | hc
                          · exact indentChars_ascii _ c hc
                          · rcases hc with _ | ⟨_, h⟩ <;> first | decide | cases h

/-- C4: after a successful run each of the two output files exists and
holds valid JSON that parses to exactly the document the remote
endpoint returned for that identifier (same keys and values). -/
theorem C4_output_equals_remote (net : Net) (fs : Fs) (r1 r2 : Response) (v1 v2 : Json)
    (h1 : net (urlFor "ne_10m_admin_0_countries_lakes") = .ok r1)
    (h2 : net (urlFor "ne_10m_admin_1_states_provinces") = .ok r2)
    (hv1 : loads r1.text = some v1) (hv2 : loads r2.text = some v2)
    (hd : "data" ∈ fs.dirs) :
    ((run net fs).2.2 = none ∧
      (run net fs).2.1.getFile (outPath "ne_10m_admin_0_countries_lakes") =
        some (dumps2 v1) ∧
      loads (dumps2 v1) = loads r1.text ∧ (loads (dumps2 v1)).isSome) ∧
    ((run net fs).2.1.getFile (outPath "ne_10m_admin_1_states_provinces") =
        some (dumps2 v2) ∧
      loads (dumps2 v2) = loads r2.text ∧ (loads (dumps2 v2)).isSome) := by
  have hne : outPath "ne_10m_admin_0_countries_lakes" ≠
      outPath "ne_10m_admin_1_states_provinces" := by decide
  have e := run_ok net fs r1 r2 v1 v2 h1 h2 hv1 hv2 hd
  have hrt1 : loads (dumps2 v1) = some v1 := loads_dumps2 v1 (loads_wf r1.text v1 hv1)
  have hrt2 : loads (dumps2 v2) = some v2 := loads_dumps2 v2 (loads_wf r2.text v2 hv2)
  rw [e]
  refine ⟨⟨rfl, ?_, ?_, ?_⟩, ?_, ?_, ?_⟩
  · rw [getFile_setFile_ne _ _ _ _ hne]
    exact getFile_setFile_same _ _ _
  · rw [hrt1, hv1]
  · rw [hrt1]; rfl
  · exact getFile_setFile_same _ _ _
  · rw [hrt2, hv2]
  · rw [hrt2]; rfl

theorem C4_witness :
    ((run netOk fsData).2.2 = none ∧
      (run netOk fsData).2.1.getFile (outPath "ne_10m_admin_0_countries_lakes") =
        some (dumps2 (.arr [.num 1, .num 2])) ∧
      loads (dumps2 (.arr [.num 1, .num 2])) = loads (Response.mk 200 "[1, 2]").text ∧
      (loads (dumps2 (.arr [.num 1, .num 2]))).isSome) ∧
    ((run netOk fsData).2.1.getFile (outPath "ne_10m_admin_1_states_provinces") =
        some (dumps2 (.arr [.bool true])) ∧
      loads (dumps2 (.arr [.bool true])) = loads (Response.mk 200 "[true]").text ∧
      (loads (dumps2 (.arr [.bool true]))).isSome) :=
  C4_output_equals_remote netOk fsData ⟨200, "[1, 2]"⟩ ⟨200, "[true]"⟩
    (.arr [.num 1, .num 2]) (.arr [.bool true]) rfl rfl rfl rfl (by decide)

/-- C5: for every file written by a successful run, parsing the file's
contents as JSON and re-serializing with 2-space indentation yields
text byte-identical to the file's contents. -/
theorem C5_serialization_fixed_point (net : Net) (fs : Fs) (r1 r2 : Response) (v1 v2 : Json)
    (h1 : net (urlFor "ne_10m_admin_0_countries_lakes") = .ok r1)
    (h2 : net (urlFor "ne_10m_admin_1_states_provinces") = .ok r2)
    (hv1 : loads r1.text = some v1) (hv2 : loads r2.text = some v2)
    (hd : "data" ∈ fs.dirs) :
    ∀ f ∈ filenames, ∀ t, (run net fs).2.1.getFile (outPath f) = some t →
      ∃ w, loads t = some w ∧ dumps2 w = t := by
  have hne : outPath "ne_10m_admin_0_countries_lakes" ≠
      outPath "ne_10m_admin_1_states_provinces" := by decide
  have e := run_ok net fs r1 r2 v1 v2 h1 h2 hv1 hv2 hd
  intro f hf t ht
  rw [e] at ht
  rw [show filenames = ["ne_10m_admin_0_countries_lakes",
    "ne_10m_admin_1_states_provinces"] from rfl] at hf
  rcases List.mem_cons.mp hf with rfl | hf
  · rw [getFile_setFile_ne _ _ _ _ hne, getFile_setFile_same] at ht
    injection ht with ht
    subst ht
    exact ⟨v1, loads_dumps2 v1 (loads_wf r1.text v1 hv1), rfl⟩
  · rcases List.mem_cons.mp hf with rfl | hf
    · rw [getFile_setFile_same] at ht
      injection ht with ht
      subst ht
      exact ⟨v2, loads_dumps2 v2 (loads_wf r2.text v2 hv2), rfl⟩
    · cases hf

theorem C5_witness :
    ∃ w, loads (dumps2 (.arr [.num 1, .num 2])) = some w ∧
      dumps2 w = dumps2 (Json.arr [.num 1, .num 2]) :=
  C5_serialization_fixed_point netOk fsData ⟨200, "[1, 2]"⟩ ⟨200, "[true]"⟩
    (.arr [.num 1, .num 2]) (.arr [.bool true]) rfl rfl rfl rfl (by decide)
    "ne_10m_admin_0_countries_lakes" (by decide) (dumps2 (.arr [.num 1, .num 2]))
    (by
      rw [run_ok netOk fsData ⟨200, "[1, 2]"⟩ ⟨200, "[true]"⟩
        (.arr [.num 1, .num 2]) (.arr [.bool true]) rfl rfl rfl rfl (by decide)]
      rw [getFile_setFile_ne _ _ _ _ (by decide), getFile_setFile_same])

/-- C10: every character of the serialized output is ASCII — the
`ensure_ascii` default of `json.dumps` keeps only printable ASCII
literal — and any character outside the ASCII range is written as a
backslash-u escape. -/
theorem C10_output_ascii (v : Json) :
    (∀ c ∈ (dumps2 v).data, c.toNat < 128) ∧
    (∀ c : Char, 0x7f ≤ c.toNat → (escapeChar c).take 2 = ['\\', 'u']) := by
  constructor
  · intro c hc
    exact dumpsChars_ascii v 0 c hc
  · intro c hc
    unfold escapeChar
    have h1 : ¬(c = '"') := by intro he; subst he; exact absurd hc (by decide)
    have h2 : ¬(c = '\\') := by intro he; subst he; exact absurd hc (by decide)
    have h3 : ¬(c = '\x08') := by intro he; subst he; exact absurd hc (by decide)
    have h4 : ¬(c = '\x0c') := by intro he; subst he; exact absurd hc (by decide)
    have h5 : ¬(c = '\n') := by intro he; subst he; exact absurd hc (by decide)
    have h6 : ¬(c = '\r') := by intro he; subst he; exact absurd hc (by decide)
    have h7 : ¬(c = '\t') := by intro he; subst he; exact absurd hc (by decide)
    have h8 : ¬(0x20 ≤ c.toNat ∧ c.toNat ≤ 0x7e) := by omega
    rw [if_neg h1, if_neg h2, if_neg h3, if_neg h4, if_neg h5, if_neg h6, if_neg h7,
      if_neg h8]
    split_ifs
    · rfl
    · rfl

theorem C10_witness :
    ('x' ∈ (dumps2 (Json.str "x")).data → 'x'.toNat < 128) ∧
    (escapeChar 'é').take 2 = ['\\', 'u'] :=
  ⟨fun h => (C10_output_ascii (.str "x")).1 'x' h,
   (C10_output_ascii (.str "x")).2 'é' (by decide)⟩


end DownloadData
